import Mathlib

/-!
Verification of the keybox repository's envelope and vault core.

The Python sources under `src/keybox/` are shallowly embedded:

* byte strings become `List Nat` (each entry a byte value),
* the header I/O (`Envelope.write_header` / `Envelope.read_header`,
  `envelope.py`) is embedded byte-exactly, including the TLV chunk loop,
  `unpack_uint` and the CRC-32 checksum (`zlib.crc32` reimplemented),
* the libsodium primitives (`nacl.pwhash.*.kdf`, `nacl.secret.SecretBox`)
  are external libraries and are modelled ideally: a derived key is the
  tuple of KDF inputs (the KDF is deterministic and collision-free in the
  model), and an authenticated ciphertext is an opaque value remembering
  the key, the nonce and the plaintext; decryption succeeds exactly when
  the key matches, mirroring the MAC check,
* `zlib` deflate (`DeflateCompressor`) is an external invertible coding;
  it is modelled as the identity coding, which preserves the only
  property the sources rely on, `decompress (compress x) = x`.
-/

namespace KeyboxProof

/-! ## Little-endian unsigned integers (`struct.pack`/`struct.unpack`) -/

/-- Little-endian decoding of a byte list: `struct.unpack('<B'/'<H'/'<L'/'<Q')`. -/
def leDecode : List Nat → Nat
  | [] => 0
  | b :: rest => b % 256 + 256 * leDecode rest

/-- Little-endian encoding of `v` into `w` bytes: `struct.pack` of the
matching width.  Callers in the source keep `v < 256^w`; `struct.error`
on overflow is reflected by hypotheses in the theorems below. -/
def leEncode : Nat → Nat → List Nat
  | 0, _ => []
  | w + 1, v => v % 256 :: leEncode w (v / 256)

/-- `struct.pack('<L', v)` — four little-endian bytes. -/
def pack4 (v : Nat) : List Nat := leEncode 4 v

theorem leEncode_length (w v : Nat) : (leEncode w v).length = w := by
  induction w generalizing v with
  | zero => rfl
  | succ w ih => simp [leEncode, ih]

theorem leDecode_leEncode (w v : Nat) (h : v < 256 ^ w) :
    leDecode (leEncode w v) = v := by
  induction w generalizing v with
  | zero =>
      have hv : v = 0 := by simpa [Nat.lt_one_iff] using h
      subst hv; rfl
  | succ w ih =>
      have hdiv : v / 256 < 256 ^ w := by
        have hp : (256 : Nat) ^ (w + 1) = 256 ^ w * 256 := pow_succ 256 w
        exact Nat.div_lt_of_lt_mul (by omega)
      simp only [leEncode, leDecode, ih (v / 256) hdiv]
      omega

/-! ## CRC-32 (`zlib.crc32`)

The standard IEEE CRC-32 used by zlib: reflected polynomial `0xEDB88320`,
initial value `0xFFFFFFFF`, final complement. -/

/-- One bit step of the reflected CRC-32 division. -/
def crcStep (c : Nat) : Nat :=
  if c % 2 = 1 then Nat.xor 0xEDB88320 (c / 2) else c / 2

/-- The CRC-32 table entry for byte `n` (8 bit steps). -/
def crcTable (n : Nat) : Nat := crcStep^[8] n

/-- Fold one byte into the running CRC. -/
def crcUpdate (crc b : Nat) : Nat :=
  Nat.xor (crc / 256) (crcTable (Nat.xor crc b % 256))

/-- `zlib.crc32(data)` on a byte list. -/
def crc32 (data : List Nat) : Nat :=
  Nat.xor (data.foldl crcUpdate 0xFFFFFFFF) 0xFFFFFFFF

theorem crcStep_lt (c : Nat) (h : c < 2 ^ 32) : crcStep c < 2 ^ 32 := by
  unfold crcStep
  split
  · exact Nat.xor_lt_two_pow (by norm_num) (by omega)
  · omega

theorem crcTable_lt (n : Nat) (h : n < 2 ^ 32) : crcTable n < 2 ^ 32 := by
  unfold crcTable
  have : ∀ k m, m < 2 ^ 32 → crcStep^[k] m < 2 ^ 32 := by
    intro k
    induction k with
    | zero => intro m hm; simpa using hm
    | succ k ih =>
        intro m hm
        rw [Function.iterate_succ_apply]
        exact ih _ (crcStep_lt m hm)
  exact this 8 n h

theorem crcUpdate_lt (crc b : Nat) (h : crc < 2 ^ 32) :
    crcUpdate crc b < 2 ^ 32 := by
  unfold crcUpdate
  refine Nat.xor_lt_two_pow (by omega) (crcTable_lt _ ?_)
  have : Nat.xor crc b % 256 < 256 := Nat.mod_lt _ (by norm_num)
  omega

theorem crc32_lt (data : List Nat) : crc32 data < 2 ^ 32 := by
  unfold crc32
  have : ∀ (l : List Nat) (acc : Nat), acc < 2 ^ 32 →
      l.foldl crcUpdate acc < 2 ^ 32 := by
    intro l
    induction l with
    | nil => intro acc h; simpa using h
    | cons b t ih =>
        intro acc h
        exact ih _ (crcUpdate_lt acc b h)
  exact Nat.xor_lt_two_pow (this data _ (by norm_num)) (by norm_num)

/-! ## Errors

Coarse embedding of the Python exceptions raised by `envelope.py` /
`keybox.py`: `nacl.exceptions.CryptoError` on a failed MAC (the spec's
`AuthFailure`), `AssertionError`, `struct.error`, `KeyError`,
`ValueError` (bad Base64 input / too-short ciphertext), and `TypeError`
(calling through a `None` box). -/

inductive Err where
  | authFailure
  | assertError
  | structError
  | keyError
  | valueError
  | typeError
  deriving DecidableEq, Repr

/-- Decidable equality of `Except` results, for evaluating the embedded
operations on concrete inputs. -/
instance {ε α : Type} [DecidableEq ε] [DecidableEq α] :
    DecidableEq (Except ε α) := fun a b =>
  match a, b with
  | .error e, .error e' =>
      if h : e = e' then .isTrue (by rw [h])
      else .isFalse (fun hh => h (Except.error.inj hh))
  | .error _, .ok _ => .isFalse (fun hh => Except.noConfusion hh)
  | .ok _, .error _ => .isFalse (fun hh => Except.noConfusion hh)
  | .ok v, .ok v' =>
      if h : v = v' then .isTrue (by rw [h])
      else .isFalse (fun hh => h (Except.ok.inj hh))

/-! ## Ideal models of the libsodium primitives (external library)

`nacl.pwhash.<algo>.kdf(KEY_SIZE, passphrase, salt, opslimit, memlimit)`
is deterministic in its inputs and collision-free in the ideal model: a
derived key is represented by the tuple of KDF inputs.
`nacl.secret.SecretBox` (XSalsa20-Poly1305) is modelled ideally: a
ciphertext is opaque, remembers key/nonce/plaintext, and `decrypt`
returns the plaintext exactly when the keys match, failing with
`authFailure` (the MAC check) otherwise. -/

structure KdfKey where
  algo : Nat
  pass : String
  salt : List Nat
  ops_limit : Nat
  mem_limit : Nat
  deriving DecidableEq

/-- An authenticated ciphertext over payload type `α` (`α` is `List Nat`
for whole files, `String` for the per-value `encrypt_base64` form). Its
on-disk byte length is `24 (nonce) + 16 (MAC) + payload length`. -/
structure Ciphertext (α : Type) where
  key : KdfKey
  nonce : Nat
  data : α
  deriving DecidableEq

/-! ## Envelope constants (`envelope.py`) -/

def MAGIC : List Nat := [0x5B, 0x4B, 0x5D, 0]

def TAG_END : Nat := 0
def TAG_DATA_SIZE : Nat := 1
def TAG_PLAIN_SIZE : Nat := 2
def TAG_COMPRESSION : Nat := 3
def TAG_CIPHER : Nat := 4
def TAG_PWHASH : Nat := 5
def TAG_SALT : Nat := 6
def TAG_OPS_LIMIT : Nat := 7
def TAG_MEM_LIMIT : Nat := 8
def TAG_CRC32 : Nat := 9

def PWHASH_SCRYPT : Nat := 1
def PWHASH_ARGON2I : Nat := 2
def PWHASH_ARGON2ID : Nat := 3

def CIPHER_XSALSA20_POLY1305 : Nat := 1

/-- `nacl.pwhash.argon2i.SALTBYTES`. -/
def SALTBYTES : Nat := 16
/-- `nacl.pwhash.argon2i.OPSLIMIT_INTERACTIVE`. -/
def OPSLIMIT_INTERACTIVE : Nat := 4
/-- `nacl.pwhash.argon2i.MEMLIMIT_INTERACTIVE` (32 MiB). -/
def MEMLIMIT_INTERACTIVE : Nat := 33554432

/-- The mutable state of an `Envelope` object.  `compression` is
`self._compressor.id`, `box`/`key` are `None` until `set_passphrase`. -/
structure Envelope where
  pwhash_algo : Nat
  compression : Nat
  box : Option KdfKey
  key : Option KdfKey
  salt : List Nat
  ops_limit : Nat
  mem_limit : Nat
  deriving DecidableEq

/-- `Envelope.__init__`: a fresh envelope for a new file.  The fresh
random salt (`nacl.utils.random(SALTBYTES)`, 16 bytes) is passed in as a
parameter. -/
def envInit (salt : List Nat) : Envelope :=
  { pwhash_algo := PWHASH_ARGON2I
    compression := 1          -- DeflateCompressor.id
    box := none
    key := none
    salt := salt
    ops_limit := OPSLIMIT_INTERACTIVE
    mem_limit := MEMLIMIT_INTERACTIVE }

/-- `Envelope._derive_key`: the KDF selected by `self._pwhash` applied to
the passphrase, salt and limits. -/
def deriveKey (env : Envelope) (p : String) : KdfKey :=
  ⟨env.pwhash_algo, p, env.salt, env.ops_limit, env.mem_limit⟩

/-- `Envelope.set_passphrase`. -/
def envSetPassphrase (env : Envelope) (p : String) : Envelope :=
  { env with key := some (deriveKey env p), box := some (deriveKey env p) }

/-- `Envelope.encrypt` — fresh random `nonce` passed in as a parameter. -/
def envEncrypt {α : Type} (env : Envelope) (nonce : Nat) (data : α) :
    Except Err (Ciphertext α) :=
  match env.box with
  | none => .error .typeError
  | some k => .ok ⟨k, nonce, data⟩

/-- `Envelope.decrypt` — the Poly1305 MAC verifies exactly when the key
matches (ideal model); otherwise `nacl` raises `CryptoError`. -/
def envDecrypt {α : Type} (env : Envelope) (c : Ciphertext α) :
    Except Err α :=
  match env.box with
  | none => .error .typeError
  | some k => if c.key = k then .ok c.data else .error .authFailure

/-- `DeflateCompressor.compress` / `NoopCompressor.compress`: zlib's raw
deflate is an external invertible coding; it is modelled as the identity
coding (the sources rely only on `decompress (compress x) = x`). -/
def compressData {α : Type} (a : α) : α := a

/-- `decompress(data, plain_size)` — `plain_size` is only a buffer-size
hint for zlib, the full output is returned either way. -/
def decompressData {α : Type} (a : α) (_plain_size : Int) : α := a

/-! ## Header chunks (`Envelope.write_header` / `Envelope.read_header`) -/

/-- `Envelope._write_chunk`: 1 byte tag, 1 byte size, value (the source
asserts `len(value) < 256`; the salt written is always 16 bytes). -/
def writeChunk (tag : Nat) (v : List Nat) : List Nat :=
  tag :: v.length :: v

/-- The local/`self` state mutated while `read_header` scans chunks. -/
structure HeaderSt where
  data_size : Int
  plain_size : Int
  crc32 : Option Nat
  compression : Nat
  pwhash_algo : Nat
  salt : List Nat
  ops_limit : Nat
  mem_limit : Nat
  deriving DecidableEq

/-- Initial scan state: `data_size = plain_size = -1`, `crc32 = None`,
remaining fields keep the envelope's current values. -/
def initSt (env : Envelope) : HeaderSt :=
  ⟨-1, -1, none, env.compression, env.pwhash_algo, env.salt,
    env.ops_limit, env.mem_limit⟩

/-- `unpack_uint` inside `read_header`: 1/2/4/8 bytes decode as u8/u16/
u32/u64 little-endian, anything else is a corrupted envelope. -/
def unpackUint (v : List Nat) : Except Err Nat :=
  if v.length = 1 ∨ v.length = 2 ∨ v.length = 4 ∨ v.length = 8 then
    .ok (leDecode v)
  else .error .structError

/-- The dispatch on one chunk `(tag, value)` in `read_header`'s loop.
Unknown tags only print a warning.  `COMPRESSION_MODULE`/`PWHASH_MODULE`
lookups raise `KeyError` on unknown ids; `CIPHER` is asserted. -/
def applyChunk (st : HeaderSt) (tag : Nat) (v : List Nat) :
    Except Err HeaderSt :=
  if tag = TAG_DATA_SIZE then
    (unpackUint v).map (fun n => { st with data_size := n })
  else if tag = TAG_PLAIN_SIZE then
    (unpackUint v).map (fun n => { st with plain_size := n })
  else if tag = TAG_COMPRESSION then
    match unpackUint v with
    | .error e => .error e
    | .ok n => if n = 0 ∨ n = 1 then .ok { st with compression := n }
               else .error .keyError
  else if tag = TAG_CIPHER then
    match unpackUint v with
    | .error e => .error e
    | .ok n => if n = CIPHER_XSALSA20_POLY1305 then .ok st
               else .error .assertError
  else if tag = TAG_PWHASH then
    match unpackUint v with
    | .error e => .error e
    | .ok n => if n = 1 ∨ n = 2 ∨ n = 3 then .ok { st with pwhash_algo := n }
               else .error .keyError
  else if tag = TAG_SALT then .ok { st with salt := v }
  else if tag = TAG_OPS_LIMIT then
    (unpackUint v).map (fun n => { st with ops_limit := n })
  else if tag = TAG_MEM_LIMIT then
    (unpackUint v).map (fun n => { st with mem_limit := n })
  else if tag = TAG_CRC32 then
    (unpackUint v).map (fun n => { st with crc32 := some n })
  else .ok st

/-- The chunk-scanning loop of `read_header`: read 2 bytes `(tag, size)`
(an implicit end when the metadata region is exhausted, `struct.error` when a
single byte is left), stop on `TAG_END`, else read `size` value bytes and
dispatch. -/
def readChunks : List Nat → HeaderSt → Except Err HeaderSt
  | [], st => .ok st
  | [_], _ => .error .structError
  | t :: s :: rest, st =>
    if t = TAG_END then .ok st
    else
      match applyChunk st t (rest.take s) with
      | .error e => .error e
      | .ok st' => readChunks (rest.drop s) st'
  termination_by l _ => l.length
  decreasing_by simp [List.length_drop]; omega

/-- Structural listing of the TLV chunks of a metadata block (same scan
as `read_chunks` but keeping every `(tag, value)` pair). -/
def parseTLV : List Nat → Except Err (List (Nat × List Nat))
  | [] => .ok []
  | [_] => .error .structError
  | t :: s :: rest =>
    if t = TAG_END then .ok []
    else
      match parseTLV (rest.drop s) with
      | .error e => .error e
      | .ok l => .ok ((t, rest.take s) :: l)
  termination_by l => l.length
  decreasing_by simp [List.length_drop]; omega

/-- The metadata chunk block emitted by `Envelope.write_header`. -/
def headerMeta (env : Envelope) (data_size plain_size crc : Nat) :
    List Nat :=
  writeChunk TAG_DATA_SIZE (pack4 data_size) ++
  writeChunk TAG_PLAIN_SIZE (pack4 plain_size) ++
  writeChunk TAG_COMPRESSION [env.compression] ++
  writeChunk TAG_CIPHER [CIPHER_XSALSA20_POLY1305] ++
  writeChunk TAG_PWHASH [env.pwhash_algo] ++
  writeChunk TAG_SALT env.salt ++
  writeChunk TAG_OPS_LIMIT [env.ops_limit] ++
  writeChunk TAG_MEM_LIMIT (pack4 env.mem_limit) ++
  writeChunk TAG_CRC32 (pack4 crc)

/-- `Envelope.write_header`: magic, u32 metadata size, chunks. -/
def writeHeader (env : Envelope) (data_size plain_size crc : Nat) :
    List Nat :=
  MAGIC ++ pack4 (headerMeta env data_size plain_size crc).length ++
    headerMeta env data_size plain_size crc

/-- `Envelope.read_header`: assert magic, read the u32 metadata size,
scan the chunks of the metadata region. -/
def readHeader (env : Envelope) (bytes : List Nat) :
    Except Err HeaderSt :=
  if bytes.take 4 = MAGIC ∧ 8 ≤ bytes.length then
    readChunks ((bytes.drop 8).take (leDecode ((bytes.drop 4).take 4)))
      (initSt env)
  else .error .assertError

/-! ### Header parse/format round-trip lemmas -/

theorem readChunks_chunk (t : Nat) (v rest : List Nat) (st : HeaderSt)
    (ht : ¬ t = TAG_END) :
    readChunks (writeChunk t v ++ rest) st =
      match applyChunk st t v with
      | .error e => .error e
      | .ok st' => readChunks rest st' := by
  show readChunks (t :: v.length :: (v ++ rest)) st = _
  rw [readChunks, if_neg ht, List.take_left, List.drop_left]

theorem readChunks_chunk_nil (t : Nat) (v : List Nat) (st : HeaderSt)
    (ht : ¬ t = TAG_END) :
    readChunks (writeChunk t v) st =
      match applyChunk st t v with
      | .error e => .error e
      | .ok st' => .ok st' := by
  have h := readChunks_chunk t v [] st ht
  rw [List.append_nil] at h
  rw [h]
  rcases applyChunk st t v with e | st'
  · rfl
  · show readChunks [] st' = _
    rw [readChunks]

theorem parseTLV_chunk (t : Nat) (v rest : List Nat)
    (ht : ¬ t = TAG_END) :
    parseTLV (writeChunk t v ++ rest) =
      match parseTLV rest with
      | .error e => .error e
      | .ok l => .ok ((t, v) :: l) := by
  show parseTLV (t :: v.length :: (v ++ rest)) = _
  rw [parseTLV, if_neg ht, List.take_left, List.drop_left]

/-- The header state a complete `write_header` metadata block parses to. -/
theorem readChunks_headerMeta (envW : Envelope) (st : HeaderSt)
    (ds ps crc : Nat)
    (hds : ds < 2 ^ 32) (hps : ps < 2 ^ 32) (hcrc : crc < 2 ^ 32)
    (hcomp : envW.compression = 0 ∨ envW.compression = 1)
    (halgo : envW.pwhash_algo = 1 ∨ envW.pwhash_algo = 2 ∨
      envW.pwhash_algo = 3)
    (hops : envW.ops_limit < 256) (hmem : envW.mem_limit < 2 ^ 32) :
    readChunks (headerMeta envW ds ps crc) st =
      .ok { st with
        data_size := ds, plain_size := ps, crc32 := some crc,
        compression := envW.compression,
        pwhash_algo := envW.pwhash_algo, salt := envW.salt,
        ops_limit := envW.ops_limit, mem_limit := envW.mem_limit } := by
  have h256 : (256 : Nat) ^ 4 = 2 ^ 32 := by norm_num
  have eds : leDecode (leEncode 4 ds) = ds :=
    leDecode_leEncode 4 ds (by rw [h256]; exact hds)
  have eps : leDecode (leEncode 4 ps) = ps :=
    leDecode_leEncode 4 ps (by rw [h256]; exact hps)
  have ecrc : leDecode (leEncode 4 crc) = crc :=
    leDecode_leEncode 4 crc (by rw [h256]; exact hcrc)
  have emem : leDecode (leEncode 4 envW.mem_limit) = envW.mem_limit :=
    leDecode_leEncode 4 envW.mem_limit (by rw [h256]; exact hmem)
  have eops : leDecode [envW.ops_limit] = envW.ops_limit := by
    simp [leDecode]; omega
  have ecomp : leDecode [envW.compression] = envW.compression := by
    simp [leDecode]; rcases hcomp with h | h <;> simp [h]
  have ealgo : leDecode [envW.pwhash_algo] = envW.pwhash_algo := by
    simp [leDecode]; rcases halgo with h | h | h <;> simp [h]
  simp only [headerMeta, List.append_assoc]
  simp [readChunks_chunk, readChunks_chunk_nil, applyChunk, unpackUint,
    pack4, leEncode_length, TAG_DATA_SIZE, TAG_PLAIN_SIZE, TAG_COMPRESSION,
    TAG_CIPHER, TAG_PWHASH, TAG_SALT, TAG_OPS_LIMIT, TAG_MEM_LIMIT,
    TAG_CRC32, TAG_END, CIPHER_XSALSA20_POLY1305, eds, eps, ecrc, emem,
    eops, ecomp, ealgo, hcomp, halgo]
  simp [Except.map, leDecode]

/-- The length of the metadata block written by `write_header`. -/
theorem headerMeta_length (envW : Envelope) (ds ps crc : Nat) :
    (headerMeta envW ds ps crc).length = 38 + envW.salt.length := by
  simp [headerMeta, writeChunk, pack4, leEncode_length]
  omega

/-- `read_header` recovers exactly what `write_header` wrote, for any
reading envelope's initial state. -/
theorem readHeader_writeHeader (envR envW : Envelope) (ds ps crc : Nat)
    (hds : ds < 2 ^ 32) (hps : ps < 2 ^ 32) (hcrc : crc < 2 ^ 32)
    (hcomp : envW.compression = 0 ∨ envW.compression = 1)
    (halgo : envW.pwhash_algo = 1 ∨ envW.pwhash_algo = 2 ∨
      envW.pwhash_algo = 3)
    (hops : envW.ops_limit < 256) (hmem : envW.mem_limit < 2 ^ 32)
    (hsalt : envW.salt.length = SALTBYTES) :
    readHeader envR (writeHeader envW ds ps crc) =
      .ok { initSt envR with
        data_size := ds, plain_size := ps,
        crc32 := some crc, compression := envW.compression,
        pwhash_algo := envW.pwhash_algo, salt := envW.salt,
        ops_limit := envW.ops_limit, mem_limit := envW.mem_limit } := by
  have hmlen : (headerMeta envW ds ps crc).length = 54 := by
    rw [headerMeta_length, hsalt]; rfl
  have hmlt : (headerMeta envW ds ps crc).length < 2 ^ 32 := by
    rw [hmlen]; norm_num
  have epack : leDecode (pack4 (headerMeta envW ds ps crc).length) =
      (headerMeta envW ds ps crc).length := by
    rw [pack4]
    exact leDecode_leEncode 4 _ (by norm_num at hmlt ⊢; exact hmlt)
  unfold writeHeader readHeader
  rw [if_pos]
  · have hd8 : ((MAGIC ++ pack4 (headerMeta envW ds ps crc).length ++
        headerMeta envW ds ps crc).drop 8) = headerMeta envW ds ps crc :=
      List.drop_left' (by simp [pack4, leEncode_length, MAGIC])
    have hd4 : ((MAGIC ++ pack4 (headerMeta envW ds ps crc).length ++
        headerMeta envW ds ps crc).drop 4) =
        pack4 (headerMeta envW ds ps crc).length ++
          headerMeta envW ds ps crc := by
      rw [List.append_assoc]
      exact List.drop_left' (by rfl)
    rw [hd4, hd8, List.take_left' (by simp [pack4, leEncode_length]),
      epack, List.take_length]
    exact readChunks_headerMeta envW (initSt envR) ds ps crc hds hps hcrc
      hcomp halgo hops hmem
  · constructor
    · rw [List.append_assoc]
      exact List.take_left' (by rfl)
    · simp [pack4, leEncode_length, MAGIC]

/-! ## Whole-file encryption (`Envelope.write` / `Envelope.read`)

The encrypted stream is modelled structurally: the header bytes are
byte-exact, the body is the opaque authenticated ciphertext (its byte
extent in the real stream is the `DATA_SIZE` the header records, namely
`40 + length of the compressed payload`).  The payload type `α` and its
byte-length/CRC functions are parameters so the same functions serve the
raw-bytes payload (`α = List Nat`, `lenFn = List.length`,
`crcFn = crc32`) and the serialized record table. -/

structure EnvFile (α : Type) where
  header : List Nat
  body : Ciphertext α

/-- `Envelope.write`: CRC of the plaintext, compress, encrypt with a
fresh nonce, emit header (data size = 40 + compressed length) and body. -/
def envWrite {α : Type} (crcFn lenFn : α → Nat) (env : Envelope)
    (nonce : Nat) (data : α) : Except Err (EnvFile α) :=
  match envEncrypt env nonce (compressData data) with
  | .error e => .error e
  | .ok body =>
    .ok ⟨writeHeader env (40 + lenFn (compressData data)) (lenFn data)
          (crcFn data), body⟩

/-- `Envelope.read`: parse the header (mutating the envelope fields),
derive the key from the callback's passphrase, decrypt, decompress,
check `plain_size` and `crc32` when present.  Returns the plaintext and
the envelope in its post-read state. -/
def envRead {α : Type} (crcFn lenFn : α → Nat) (env : Envelope)
    (file : EnvFile α) (p : String) : Except Err (α × Envelope) :=
  match readHeader env file.header with
  | .error e => .error e
  | .ok hs =>
    let env1 := { env with
      salt := hs.salt, pwhash_algo := hs.pwhash_algo,
      ops_limit := hs.ops_limit, mem_limit := hs.mem_limit,
      compression := hs.compression }
    let env2 := envSetPassphrase env1 p
    match envDecrypt env2 file.body with
    | .error e => .error e
    | .ok d =>
      let data := decompressData d hs.plain_size
      if hs.plain_size = -1 ∨ (lenFn data : Int) = hs.plain_size then
        match hs.crc32 with
        | some c =>
            if crcFn data = c then .ok (data, env2) else .error .assertError
        | none => .ok (data, env2)
      else .error .assertError

/-- The envelope state after a successful `Envelope.read` of a file
written by `envW` with passphrase `p`: fields adopted from the header,
key/box derived from `p`. -/
def postReadEnv (envR envW : Envelope) (p : String) : Envelope :=
  { envR with
    salt := envW.salt, pwhash_algo := envW.pwhash_algo,
    ops_limit := envW.ops_limit, mem_limit := envW.mem_limit,
    compression := envW.compression,
    key := some (deriveKey envW p), box := some (deriveKey envW p) }

/-- Reading back a written envelope file with the writing passphrase
recovers the payload (and leaves the envelope holding the derived key). -/
theorem envRead_envWrite {α : Type} (crcFn lenFn : α → Nat)
    (envR envW : Envelope) (p : String) (nonce : Nat) (data : α)
    (hbox : envW.box = some (deriveKey envW p))
    (hcomp : envW.compression = 0 ∨ envW.compression = 1)
    (halgo : envW.pwhash_algo = 1 ∨ envW.pwhash_algo = 2 ∨
      envW.pwhash_algo = 3)
    (hops : envW.ops_limit < 256) (hmem : envW.mem_limit < 2 ^ 32)
    (hsalt : envW.salt.length = SALTBYTES)
    (hlen : lenFn data + 40 < 2 ^ 32) (hcrcb : crcFn data < 2 ^ 32) :
    (envWrite crcFn lenFn envW nonce data).bind
      (fun f => envRead crcFn lenFn envR f p) =
      .ok (data, postReadEnv envR envW p) := by
  have hrh := readHeader_writeHeader envR envW (40 + lenFn data)
    (lenFn data) (crcFn data) (by omega) (by omega) hcrcb hcomp halgo
    hops hmem hsalt
  simp [envWrite, envEncrypt, hbox, compressData, Except.bind, envRead,
    hrh, envDecrypt, envSetPassphrase, deriveKey, decompressData, initSt,
    postReadEnv]

/-- Reading back a written envelope file with any other passphrase fails
the MAC check (`AuthFailure`). -/
theorem envRead_envWrite_wrong_pass {α : Type} (crcFn lenFn : α → Nat)
    (envR envW : Envelope) (p p' : String) (nonce : Nat) (data : α)
    (hbox : envW.box = some (deriveKey envW p))
    (hne : p ≠ p')
    (hcomp : envW.compression = 0 ∨ envW.compression = 1)
    (halgo : envW.pwhash_algo = 1 ∨ envW.pwhash_algo = 2 ∨
      envW.pwhash_algo = 3)
    (hops : envW.ops_limit < 256) (hmem : envW.mem_limit < 2 ^ 32)
    (hsalt : envW.salt.length = SALTBYTES)
    (hlen : lenFn data + 40 < 2 ^ 32) (hcrcb : crcFn data < 2 ^ 32) :
    (envWrite crcFn lenFn envW nonce data).bind
      (fun f => envRead crcFn lenFn envR f p') =
      .error .authFailure := by
  have hrh := readHeader_writeHeader envR envW (40 + lenFn data)
    (lenFn data) (crcFn data) (by omega) (by omega) hcrcb hcomp halgo
    hops hmem hsalt
  simp [envWrite, envEncrypt, hbox, compressData, Except.bind, envRead,
    hrh, envDecrypt, envSetPassphrase, deriveKey, decompressData, initSt,
    KdfKey.mk.injEq, hne]

/-- C1: for every passphrase `p` and byte payload `x`, writing `x` with
a fresh `Envelope` under `p` (`Envelope.write`) and reading the stream
back with a fresh `Envelope` whose passphrase callback returns `p`
(`Envelope.read`) yields exactly `x`.  The salts are the fresh 16-byte
random salts of the two envelopes; `x` is bounded by the u32 header
field as in the source. -/
theorem claim_C1_envelope_write_read_roundtrip (p : String) (x : List Nat)
    (salt salt2 : List Nat) (nonce : Nat)
    (hsalt : salt.length = SALTBYTES) (hx : x.length + 40 < 2 ^ 32) :
    (envWrite crc32 List.length (envSetPassphrase (envInit salt) p)
        nonce x).bind
      (fun f => (envRead crc32 List.length (envInit salt2) f p).map
        Prod.fst) = .ok x := by
  have h := envRead_envWrite crc32 List.length (envInit salt2)
    (envSetPassphrase (envInit salt) p) p nonce x
    (by simp [envSetPassphrase, deriveKey, envInit])
    (by simp [envSetPassphrase, envInit])
    (by simp [envSetPassphrase, envInit, PWHASH_ARGON2I])
    (by simp [envSetPassphrase, envInit, OPSLIMIT_INTERACTIVE])
    (by simp [envSetPassphrase, envInit, MEMLIMIT_INTERACTIVE])
    (by simpa [envSetPassphrase, envInit] using hsalt)
    hx (crc32_lt x)
  rcases hfile : envWrite crc32 List.length
      (envSetPassphrase (envInit salt) p) nonce x with e | file
  · rw [hfile] at h
    simp [Except.bind] at h
  · rw [hfile] at h
    simp only [Except.bind] at h ⊢
    rw [h]
    rfl

/-- C1 witness: concrete round trip. -/
theorem claim_C1_envelope_write_read_roundtrip_witness :
    (envWrite crc32 List.length
        (envSetPassphrase (envInit (List.replicate 16 7)) "pw") 5
        [10, 20, 30]).bind
      (fun f => (envRead crc32 List.length (envInit (List.replicate 16 9))
        f "pw").map Prod.fst) = .ok [10, 20, 30] :=
  claim_C1_envelope_write_read_roundtrip "pw" [10, 20, 30]
    (List.replicate 16 7) (List.replicate 16 9) 5 (by decide) (by decide)

/-- C2: for `p ≠ p'`, reading a file written under `p` with the
passphrase callback returning `p'` fails with `AuthFailure` (the AEAD
MAC does not verify); no plaintext is returned. -/
theorem claim_C2_wrong_passphrase_auth_failure (p p' : String)
    (x : List Nat) (salt salt2 : List Nat) (nonce : Nat)
    (hne : p ≠ p')
    (hsalt : salt.length = SALTBYTES) (hx : x.length + 40 < 2 ^ 32) :
    (envWrite crc32 List.length (envSetPassphrase (envInit salt) p)
        nonce x).bind
      (fun f => envRead crc32 List.length (envInit salt2) f p') =
      .error .authFailure :=
  envRead_envWrite_wrong_pass crc32 List.length (envInit salt2)
    (envSetPassphrase (envInit salt) p) p p' nonce x
    (by simp [envSetPassphrase, deriveKey, envInit])
    hne
    (by simp [envSetPassphrase, envInit])
    (by simp [envSetPassphrase, envInit, PWHASH_ARGON2I])
    (by simp [envSetPassphrase, envInit, OPSLIMIT_INTERACTIVE])
    (by simp [envSetPassphrase, envInit, MEMLIMIT_INTERACTIVE])
    (by simpa [envSetPassphrase, envInit] using hsalt)
    hx (crc32_lt x)

/-- C2 witness: concrete wrong-passphrase failure. -/
theorem claim_C2_wrong_passphrase_auth_failure_witness :
    (envWrite crc32 List.length
        (envSetPassphrase (envInit (List.replicate 16 7)) "pw") 5
        [10, 20, 30]).bind
      (fun f => envRead crc32 List.length (envInit (List.replicate 16 9))
        f "other") = .error .authFailure :=
  claim_C2_wrong_passphrase_auth_failure "pw" "other" [10, 20, 30]
    (List.replicate 16 7) (List.replicate 16 9) 5 (by decide) (by decide)
    (by decide)

theorem parseTLV_chunk_nil (t : Nat) (v : List Nat) (ht : ¬ t = TAG_END) :
    parseTLV (writeChunk t v) = .ok [(t, v)] := by
  have h := parseTLV_chunk t v [] ht
  rw [List.append_nil] at h
  rw [h]
  have h0 : parseTLV [] = .ok [] := by rw [parseTLV]
  rw [h0]

/-- `read_header` on a stream made of magic, u32 size and a metadata
block scans exactly that block. -/
theorem readHeader_of_meta (envR : Envelope) (meta : List Nat)
    (hm : meta.length < 2 ^ 32) :
    readHeader envR (MAGIC ++ pack4 meta.length ++ meta) =
      readChunks meta (initSt envR) := by
  have epack : leDecode (pack4 meta.length) = meta.length := by
    rw [pack4]
    exact leDecode_leEncode 4 _ (by norm_num at hm ⊢; exact hm)
  unfold readHeader
  rw [if_pos]
  · have hd8 : ((MAGIC ++ pack4 meta.length ++ meta).drop 8) = meta :=
      List.drop_left' (by simp [pack4, leEncode_length, MAGIC])
    have hd4 : ((MAGIC ++ pack4 meta.length ++ meta).drop 4) =
        pack4 meta.length ++ meta := by
      rw [List.append_assoc]
      exact List.drop_left' (by rfl)
    rw [hd4, hd8, List.take_left' (by simp [pack4, leEncode_length]),
      epack, List.take_length]
  · constructor
    · rw [List.append_assoc]
      exact List.take_left' (by rfl)
    · simp [pack4, leEncode_length, MAGIC]

/-- C4 (amended): in the header written by `write_header` and parsed by
`read_header`, chunk tag 6 carries the SALT bytes, tag 7 the OPS_LIMIT
KDF parameter, tag 8 the MEM_LIMIT KDF parameter, and tag 9 the CRC-32
of the plaintext; `read_header` routes each of those values to the
corresponding envelope field. -/
theorem claim_C4_header_tag_layout (envR envW : Envelope) (ds ps crc : Nat)
    (hds : ds < 2 ^ 32) (hps : ps < 2 ^ 32) (hcrc : crc < 2 ^ 32)
    (hcomp : envW.compression = 0 ∨ envW.compression = 1)
    (halgo : envW.pwhash_algo = 1 ∨ envW.pwhash_algo = 2 ∨
      envW.pwhash_algo = 3)
    (hops : envW.ops_limit < 256) (hmem : envW.mem_limit < 2 ^ 32)
    (hsalt : envW.salt.length = SALTBYTES) :
    parseTLV (headerMeta envW ds ps crc) =
      .ok [(1, pack4 ds), (2, pack4 ps), (3, [envW.compression]),
           (4, [CIPHER_XSALSA20_POLY1305]), (5, [envW.pwhash_algo]),
           (6, envW.salt), (7, [envW.ops_limit]),
           (8, pack4 envW.mem_limit), (9, pack4 crc)] ∧
    readHeader envR (writeHeader envW ds ps crc) =
      .ok { initSt envR with
        data_size := ds, plain_size := ps,
        crc32 := some crc, compression := envW.compression,
        pwhash_algo := envW.pwhash_algo, salt := envW.salt,
        ops_limit := envW.ops_limit, mem_limit := envW.mem_limit } := by
  constructor
  · simp only [headerMeta, List.append_assoc]
    simp [parseTLV_chunk, parseTLV_chunk_nil, TAG_DATA_SIZE,
      TAG_PLAIN_SIZE, TAG_COMPRESSION, TAG_CIPHER, TAG_PWHASH, TAG_SALT,
      TAG_OPS_LIMIT, TAG_MEM_LIMIT, TAG_CRC32, TAG_END]
  · exact readHeader_writeHeader envR envW ds ps crc hds hps hcrc hcomp
      halgo hops hmem hsalt

/-- C4 witness: concrete header layout. -/
theorem claim_C4_header_tag_layout_witness :
    parseTLV (headerMeta (envInit (List.replicate 16 2)) 60 20 77) =
      .ok [(1, pack4 60), (2, pack4 20),
           (3, [(envInit (List.replicate 16 2)).compression]),
           (4, [CIPHER_XSALSA20_POLY1305]),
           (5, [(envInit (List.replicate 16 2)).pwhash_algo]),
           (6, (envInit (List.replicate 16 2)).salt),
           (7, [(envInit (List.replicate 16 2)).ops_limit]),
           (8, pack4 (envInit (List.replicate 16 2)).mem_limit),
           (9, pack4 77)] ∧
    readHeader (envInit (List.replicate 16 3))
        (writeHeader (envInit (List.replicate 16 2)) 60 20 77) =
      .ok { initSt (envInit (List.replicate 16 3)) with
        data_size := 60, plain_size := 20,
        crc32 := some 77,
        compression := (envInit (List.replicate 16 2)).compression,
        pwhash_algo := (envInit (List.replicate 16 2)).pwhash_algo,
        salt := (envInit (List.replicate 16 2)).salt,
        ops_limit := (envInit (List.replicate 16 2)).ops_limit,
        mem_limit := (envInit (List.replicate 16 2)).mem_limit } :=
  claim_C4_header_tag_layout (envInit (List.replicate 16 3))
    (envInit (List.replicate 16 2)) 60 20 77 (by decide) (by decide)
    (by decide) (by simp [envInit]) (by simp [envInit, PWHASH_ARGON2I])
    (by simp [envInit, OPSLIMIT_INTERACTIVE])
    (by simp [envInit, MEMLIMIT_INTERACTIVE]) (by simp [envInit, SALTBYTES])

/-- C4 counterexample: in the written header, the chunk tagged 7 carries
the one-byte OPS_LIMIT (not the 16-byte salt) and the chunk tagged 8
carries the MEM_LIMIT (not the CRC-32 of the plaintext, here 77). -/
theorem claim_C4_counterexample :
    (parseTLV (headerMeta (envInit (List.replicate 16 2)) 60 20 77)).map
        (fun l => (l.lookup 7, l.lookup 8)) =
      .ok (some [OPSLIMIT_INTERACTIVE], some (pack4 MEMLIMIT_INTERACTIVE)) ∧
    some [OPSLIMIT_INTERACTIVE] ≠
      some ((envInit (List.replicate 16 2)).salt) ∧
    some (pack4 MEMLIMIT_INTERACTIVE) ≠ some (pack4 77) := by
  refine ⟨?_, by decide, by decide⟩
  simp only [headerMeta, List.append_assoc]
  simp [parseTLV_chunk, parseTLV_chunk_nil, TAG_DATA_SIZE,
    TAG_PLAIN_SIZE, TAG_COMPRESSION, TAG_CIPHER, TAG_PWHASH, TAG_SALT,
    TAG_OPS_LIMIT, TAG_MEM_LIMIT, TAG_CRC32, TAG_END, envInit,
    List.lookup, Except.map]

/-- C5 (amended): the key a freshly constructed `Envelope` (new file)
derives via `set_passphrase` uses the Argon2i KDF (`PWHASH_ARGON2I = 2`,
`nacl.pwhash.argon2i`) with the envelope's salt and interactive limits —
not Argon2id. -/
theorem claim_C5_fresh_envelope_kdf_is_argon2i (salt : List Nat)
    (p : String) :
    (envSetPassphrase (envInit salt) p).key =
      some ⟨PWHASH_ARGON2I, p, salt, OPSLIMIT_INTERACTIVE,
        MEMLIMIT_INTERACTIVE⟩ ∧
    (envInit salt).pwhash_algo = PWHASH_ARGON2I ∧
    PWHASH_ARGON2I ≠ PWHASH_ARGON2ID := by
  refine ⟨?_, rfl, by decide⟩
  simp [envSetPassphrase, deriveKey, envInit]

/-- C5 counterexample: the KDF algorithm id of a fresh envelope's derived
key is 2 (argon2i), not 3 (argon2id). -/
theorem claim_C5_counterexample :
    ((envSetPassphrase (envInit (List.replicate 16 0)) "p").key.map
      KdfKey.algo) = some PWHASH_ARGON2I ∧
    PWHASH_ARGON2I ≠ PWHASH_ARGON2ID := by
  constructor
  · simp [envSetPassphrase, deriveKey, envInit]
  · decide

/-- C6: a uint-typed chunk (here DATA_SIZE) encoded as 1, 2, 4 or 8
little-endian bytes parses to the same value `v` in all four cases,
provided `v` fits the chosen width. -/
theorem claim_C6_uint_width_tolerance (envR : Envelope) (v w : Nat)
    (hw : w = 1 ∨ w = 2 ∨ w = 4 ∨ w = 8) (hv : v < 256 ^ w) :
    readHeader envR
        (MAGIC ++ pack4 (writeChunk TAG_DATA_SIZE (leEncode w v)).length
          ++ writeChunk TAG_DATA_SIZE (leEncode w v)) =
      .ok { initSt envR with data_size := (v : Int) } := by
  rw [readHeader_of_meta _ _ (by
    simp [writeChunk, leEncode_length]
    rcases hw with h | h | h | h <;> simp [h])]
  rw [readChunks_chunk_nil _ _ _ (by decide)]
  simp [applyChunk, TAG_DATA_SIZE, unpackUint, leEncode_length, hw,
    leDecode_leEncode w v hv, Except.map]

/-- C6 witness: the value 300 encoded as u16 parses back to 300. -/
theorem claim_C6_uint_width_tolerance_witness :
    readHeader (envInit (List.replicate 16 0))
        (MAGIC ++ pack4 (writeChunk TAG_DATA_SIZE (leEncode 2 300)).length
          ++ writeChunk TAG_DATA_SIZE (leEncode 2 300)) =
      .ok { initSt (envInit (List.replicate 16 0)) with
        data_size := (300 : Int) } :=
  claim_C6_uint_width_tolerance (envInit (List.replicate 16 0)) 300 2
    (by decide) (by decide)

/-! ## Stored field values (`keybox.py`)

A record field holds a Python `str`.  In the vault the `password` column
holds either the empty string or the Base64 text of an authenticated
ciphertext produced by `Envelope.encrypt_base64`; every other value is
plain text.  The Base64 ciphertext text is opaque in the model
(`cipherB64`); a `plainStr` never aliases it.  `encrypt_base64` encrypts
`value.encode('utf-8')` and `decrypt_base64` decodes back — the UTF-8
round trip is modelled by carrying the `String` itself as the ciphertext
payload. -/

inductive Val where
  | plainStr (s : String)
  | cipherB64 (c : Ciphertext String)
  deriving DecidableEq

/-- Python string truthiness (`if value:`): nonempty.  Base64 ciphertext
text is never empty. -/
def valTruthy : Val → Bool
  | .plainStr s => s ≠ ""
  | .cipherB64 _ => true

/-- `len(value)` of the stored text, used only for display widths.  The
Base64 text of a ciphertext of `n` payload bytes (24-byte nonce +
16-byte MAC prepended) has length `4 * ceil((40+n)/3)`. -/
def valLen : Val → Nat
  | .plainStr s => s.length
  | .cipherB64 c => 4 * ((40 + c.data.utf8ByteSize + 2) / 3)

/-- Dict-style assignment on an association list: replace the first
binding of the key in place, else append (Python dict semantics). -/
def setAssoc {β : Type} : List (String × β) → String → β → List (String × β)
  | [], k, v => [(k, v)]
  | (k', v') :: t, k, v =>
    if k' = k then (k, v) :: t else (k', v') :: setAssoc t k v

/-! ## Records (`src/keys/record.py`)

`Record` is a `dict` subclass: an insertion-ordered mapping from column
name to value, embedded as an association list with unique keys.
`Record.__init__` pops the `columns` kwarg (default `list(COLUMNS)`),
runs the plain `dict` constructor on the given pairs, then
`_standardize_columns` assigns the empty string to every listed column
that is missing (or `None` — the embedded call sites pass only
strings).  The second `_standardize_columns` loop and the `_columns`
attribute maintain the record's own column-order bookkeeping for
`get_columns`/`__repr__`; no operation embedded here reads it — the
vault always iterates its own column list — so the model tracks the
mapping alone.  Unknown keys among the initial pairs stay in the
mapping untouched (they are appended to `_columns`, not dropped). -/

abbrev Rec := List (String × Val)

/-- `COLUMNS` (`src/keys/record.py`): the initial columns of a new
keybox file. -/
def COLUMNS : List String :=
  ["site", "user", "url", "tags", "mtime", "note", "password"]

/-- `Record.__setitem__`: `super().__setitem__(key, value or '')` — a
falsy value is stored as the empty string (the `_columns` append is
order bookkeeping, see the section comment). -/
def recordSetItem (r : Rec) (k : String) (v : Val) : Rec :=
  setAssoc r k (if valTruthy v then v else .plainStr "")

/-- `dict(*args)`: the given pairs in insertion order; a later duplicate
key overrides the value in place (no embedded call site passes
duplicates). -/
def dictOf (pairs : List (String × Val)) : Rec :=
  pairs.foldl (fun acc kv => setAssoc acc kv.1 kv.2) []

/-- The first `_standardize_columns` loop: every listed column that is
missing is set to the empty string through `__setitem__`. -/
def standardizeCols (columns : List String) (d : Rec) : Rec :=
  columns.foldl
    (fun acc c => if (acc.lookup c).isSome then acc
      else recordSetItem acc c (.plainStr ""))
    d

/-- `Record.__init__(*args, columns=...)`. -/
def recordInit (columns : List String) (pairs : List (String × Val)) :
    Rec :=
  standardizeCols columns (dictOf pairs)

/-! ## Per-value encryption (`Envelope.encrypt_base64` / `decrypt_base64`) -/

/-- `Envelope.encrypt_base64`: encrypt the UTF-8 bytes of `s` with a
fresh nonce, Base64-encode the result. -/
def encryptB64 (env : Envelope) (nonce : Nat) (s : String) :
    Except Err Val :=
  (envEncrypt env nonce s).map .cipherB64

/-- `Envelope.decrypt_base64`: Base64-decode, then decrypt.  A plain
string that is not an `encrypt_base64` output always fails: the empty
string decodes to `b''` whose missing nonce raises `ValueError`, other
plain text is either invalid Base64 (`binascii.Error`) or a forged
ciphertext (`CryptoError`); all are modelled as `valueError`. -/
def decryptB64 (env : Envelope) (v : Val) : Except Err String :=
  match v with
  | .plainStr _ => .error .valueError
  | .cipherB64 c => envDecrypt env c

/-! ## Record proxies (`keybox.py`) -/

/-- `EncryptedRecord.__getitem__`: raw value, except a truthy `password`
value is decrypted on access. -/
def encRecGet (env : Envelope) (r : Rec) (k : String) : Except Err Val :=
  match r.lookup k with
  | none => .error .keyError
  | some v =>
    if k = "password" ∧ valTruthy v then
      (decryptB64 env v).map .plainStr
    else .ok v

/-- `EncryptedRecord.get(key, default)`. -/
def encRecGetD (env : Envelope) (r : Rec) (k : String) (d : Val) :
    Except Err Val :=
  let v := (r.lookup k).getD d
  if k = "password" ∧ valTruthy v then
    (decryptB64 env v).map .plainStr
  else .ok v

/-- `nt_escape` (`stringutil.py`) on one character. -/
def ntEscapeChar (c : Char) : List Char :=
  if c = '\\' then ['\\', '\\']
  else if c = '\n' then ['\\', 'n']
  else if c = '\t' then ['\\', 't']
  else [c]

/-- `nt_escape`: C-style escape of backslash, newline and tab. -/
def ntEscape (s : String) : String := ⟨(s.data.map ntEscapeChar).flatten⟩

/-- `ExportRecord.__getitem__`: like `EncryptedRecord.__getitem__` but
the (decrypted) `password` value is passed through `nt_escape`; other
columns are returned raw.  (The `cipherB64` fallback is unreachable —
`__getitem__` decrypts truthy passwords — and Base64 text contains no
character `nt_escape` rewrites.) -/
def exportGet (env : Envelope) (r : Rec) (k : String) : Except Err Val :=
  match encRecGet env r k with
  | .error e => .error e
  | .ok v =>
    if k = "password" then
      match v with
      | .plainStr s => .ok (.plainStr (ntEscape s))
      | .cipherB64 c => .ok (.cipherB64 c)
    else .ok v

/-! ## The Keybox (`keybox.py`) -/

structure Keybox where
  records : List Rec
  columns : List String
  column_widths : List (String × Nat)
  envelope : Envelope
  modified : Bool
  deriving DecidableEq

/-- `Keybox.__init__` (fresh random envelope salt as parameter). -/
def kbInit (salt : List Nat) : Keybox :=
  { records := [], columns := COLUMNS, column_widths := [],
    envelope := envInit salt, modified := false }

/-- `Keybox.update_width`. -/
def updateWidth (ws : List (String × Nat)) (column : String) (value : Val) :
    List (String × Nat) :=
  if valLen value + 2 > (ws.lookup column).getD 0 then
    setAssoc ws column (valLen value + 2)
  else ws

/-- `Keybox.recompute_widths` (canonical columns are present in every
record of a parsed file; missing ones read as empty). -/
def recomputeWidths (columns : List String) (records : List Rec) :
    List (String × Nat) :=
  columns.map (fun c =>
    (c, 2 + records.foldl
      (fun m r => max m (valLen ((r.lookup c).getD (.plainStr "")))) 0))

/-- `KeyboxRecord.touch` applied to record `i`: stamp `mtime` with the
current time, update its width, mark the keybox dirty. -/
def touchAt (kb : Keybox) (i : Nat) (now : String) : Keybox :=
  match kb.records.get? i with
  | none => kb
  | some r =>
    { kb with
      records := kb.records.set i (recordSetItem r "mtime" (.plainStr now)),
      column_widths := updateWidth kb.column_widths "mtime" (.plainStr now),
      modified := true }

/-- `KeyboxRecord.__init__`, the side effects of constructing the proxy
over record `i` (as `Keybox.__iter__`/`__getitem__` do): touch the
record when its `mtime` is empty, then feed every item through
`update_width`. -/
def mkProxyEffect (kb : Keybox) (i : Nat) (now : String) :
    Except Err Keybox :=
  match kb.records.get? i with
  | none => .error .keyError
  | some r =>
    match r.lookup "mtime" with
    | none => .error .keyError
    | some mt =>
      let kb1 := if valTruthy mt then kb else touchAt kb i now
      let r1 := (kb1.records.get? i).getD r
      .ok { kb1 with
        column_widths :=
          r1.foldl (fun ws kv => updateWidth ws kv.1 kv.2)
            kb1.column_widths }

/-- Constructing the proxies for every record, as a full pass over
`Keybox.__iter__` does. -/
def proxyAllGo (now : String) : List Nat → Keybox → Except Err Keybox
  | [], kb => .ok kb
  | i :: rest, kb =>
    match mkProxyEffect kb i now with
    | .error e => .error e
    | .ok kb' => proxyAllGo now rest kb'

def proxyAll (kb : Keybox) (now : String) : Except Err Keybox :=
  proxyAllGo now (List.range kb.records.length) kb

/-- `Keybox.add_record`: pop `password` from the kwargs, build the
record (canonical defaulting), encrypt the password into the per-value
form only when truthy, append, then construct the returned
`KeyboxRecord` proxy (touching the new record when its `mtime` is
empty).  The nonce counter is consumed only when an encryption happens.
A `password` kwarg that is already opaque ciphertext text would be
re-encrypted as text by the source; that path is outside the model and
outside every modelled call site. -/
def addRecord (kb : Keybox) (pairs : List (String × Val)) (nonceCtr : Nat)
    (now : String) : Except Err (Keybox × Nat) :=
  let pw := (pairs.lookup "password").getD (.plainStr "")
  let rest := pairs.filter (fun kv => kv.1 ≠ "password")
  let rec0 := recordInit kb.columns rest
  match (if valTruthy pw then
      match pw with
      | .plainStr s =>
          (encryptB64 kb.envelope nonceCtr s).map
            (fun ev => (recordSetItem rec0 "password" ev, nonceCtr + 1))
      | .cipherB64 _ => .error .typeError
    else .ok (rec0, nonceCtr)) with
  | .error e => .error e
  | .ok (recd, ctr) =>
    let kb1 := { kb with records := kb.records ++ [recd] }
    (mkProxyEffect kb1 kb.records.length now).map (fun kb2 => (kb2, ctr))

/-- The re-encryption loop of `Keybox.set_passphrase`: for each record,
`previous.decrypt_base64(record['password'])` then
`record['password'] = new.encrypt_base64(...)`; `nf i` is the fresh
nonce of the `i`-th encryption. -/
def rotateRecs (prev envNew : Envelope) (nf : Nat → Nat) :
    Nat → List Rec → Except Err (List Rec)
  | _, [] => .ok []
  | i, r :: rs =>
    match r.lookup "password" with
    | none => .error .keyError
    | some v =>
      match decryptB64 prev v with
      | .error e => .error e
      | .ok pw =>
        match encryptB64 envNew (nf i) pw with
        | .error e => .error e
        | .ok ev =>
          match rotateRecs prev envNew nf (i + 1) rs with
          | .error e => .error e
          | .ok rs' => .ok (recordSetItem r "password" ev :: rs')

/-- `Keybox.set_passphrase`: fresh envelope (new salt) keyed with the
new passphrase, every record's password re-encrypted from the previous
envelope to the new one, keybox marked dirty. -/
def kbSetPassphrase (kb : Keybox) (newp : String) (salt' : List Nat)
    (nf : Nat → Nat) : Except Err Keybox :=
  let prev := kb.envelope
  let envNew := envSetPassphrase (envInit salt') newp
  match rotateRecs prev envNew nf 0 kb.records with
  | .error e => .error e
  | .ok recs' =>
    .ok { kb with envelope := envNew, records := recs', modified := true }

/-! ## The vault text format (`fileformat.py`) and whole-vault read/write

`format_file`/`parse_file` serialize the record table as a
tab-delimited header line plus one tab-delimited line per record, each
line ending in `'\n'`.  The serialized text is embedded as a list of
tokens: an ordinary character is `Tok.ch c`, and one whole Base64
ciphertext — the stored form of an encrypted password, opaque text that
never contains a tab or a newline — is the single atom `Tok.ct c`.
Splitting on tabs and newlines treats the atom like any other
non-separator character, exactly as the real Base64 text behaves under
`str.split`/`rstrip`.  The byte length and CRC of the encoded text are
abstracted as the parameters `lenFn`/`crcFn` of the envelope layer. -/

inductive Tok where
  | ch (c : Char)
  | ct (c : Ciphertext String)
  deriving DecidableEq

/-- The token rendering of a plain string. -/
def strToks (s : String) : List Tok := s.data.map Tok.ch

/-- The token rendering of one stored value. -/
def valToks : Val → List Tok
  | .plainStr s => strToks s
  | .cipherB64 c => [Tok.ct c]

/-- The plain characters of a token list (a `ct` atom stands for opaque
Base64 text whose individual characters are not tracked). -/
def toksStr (l : List Tok) : String :=
  ⟨l.filterMap (fun t => match t with | .ch c => some c | .ct _ => none)⟩

/-- The stored value a parsed field stands for: a field that is exactly
one ciphertext atom is that Base64 text; any other field is plain text.
(A field mixing an atom with other characters stands for text that is
not a valid `encrypt_base64` output; the plain value chosen here fails
`decrypt_base64` exactly as the real string would.) -/
def tokListVal : List Tok → Val
  | [Tok.ct c] => .cipherB64 c
  | l => .plainStr (toksStr l)

/-- `'\t'.join(...)`. -/
def joinTabs : List (List Tok) → List Tok
  | [] => []
  | [x] => x
  | x :: y :: t => x ++ Tok.ch '\t' :: joinTabs (y :: t)

/-- `record[key]` for each column in order (`KeyError` when a column is
missing from the record). -/
def fieldsToks (r : Rec) : List String → Except Err (List (List Tok))
  | [] => .ok []
  | c :: cs =>
    match r.lookup c with
    | none => .error .keyError
    | some v =>
      match fieldsToks r cs with
      | .error e => .error e
      | .ok rest => .ok (valToks v :: rest)

/-- `format_record`: tab-joined column values plus a newline. -/
def formatRecordToks (r : Rec) (columns : List String) :
    Except Err (List Tok) :=
  (fieldsToks r columns).map (fun fs => joinTabs fs ++ [Tok.ch '\n'])

/-- `format_header`: tab-joined column names plus a newline. -/
def formatHeaderToks (columns : List String) : List Tok :=
  joinTabs (columns.map strToks) ++ [Tok.ch '\n']

/-- The concatenated record lines of `format_file`. -/
def recordsToks (columns : List String) : List Rec → Except Err (List Tok)
  | [] => .ok []
  | r :: rs =>
    match formatRecordToks r columns with
    | .error e => .error e
    | .ok l => (recordsToks columns rs).map (fun rest => l ++ rest)

/-- `format_file`: the header line, then one line per record. -/
def formatFileToks (records : List Rec) (columns : List String) :
    Except Err (List Tok) :=
  (recordsToks columns records).map
    (fun body => formatHeaderToks columns ++ body)

/-- `io.StringIO` line iteration: split after each newline, keeping the
newline in the line; a final segment without a newline is still a line;
no empty final line is produced. -/
def splitLinesGo : List Tok → List Tok → List (List Tok)
  | acc, [] => if acc.isEmpty then [] else [acc.reverse]
  | acc, t :: ts =>
    if t = Tok.ch '\n' then
      (acc.reverse ++ [Tok.ch '\n']) :: splitLinesGo [] ts
    else splitLinesGo (t :: acc) ts

def splitLines (l : List Tok) : List (List Tok) := splitLinesGo [] l

/-- `data.rstrip('\n')` at token level. -/
def pyRstripNlTok (l : List Tok) : List Tok :=
  (l.reverse.dropWhile (fun t => t = Tok.ch '\n')).reverse

/-- Python `str.split('\t')` at token level. -/
def splitTabsTok : List Tok → List (List Tok)
  | [] => [[]]
  | t :: ts =>
    if t = Tok.ch '\t' then [] :: splitTabsTok ts
    else
      match splitTabsTok ts with
      | [] => [[t]]
      | h :: tl => (t :: h) :: tl

/-- `parse_header`: `data.rstrip('\n').split('\t')` as column names. -/
def parseHeaderToks (line : List Tok) : List String :=
  (splitTabsTok (pyRstripNlTok line)).map toksStr

/-- `parse_record`: `Record(zip(columns, values))` (with the canonical
column defaulting of `Record.__init__`). -/
def parseRecordToks (columns : List String) (line : List Tok) : Rec :=
  recordInit COLUMNS
    (columns.zip ((splitTabsTok (pyRstripNlTok line)).map tokListVal))

/-- `parse_file`: the first line is the header, the rest are records
(`read_file`; an empty stream gives the single column `''`). -/
def parseFileToks (data : List Tok) : List Rec × List String :=
  match splitLines data with
  | [] => ([], [""])
  | h :: t =>
    (t.map (parseRecordToks (parseHeaderToks h)), parseHeaderToks h)

/-- A string free of tab and newline characters. -/
def strCleanB (s : String) : Bool :=
  s.data.all (fun c => !(c == '\t') && !(c == '\n'))

/-- A stored value whose serialized text is free of tab and newline:
plain text without either character, or a Base64 ciphertext atom. -/
def valCleanB : Val → Bool
  | .plainStr s => strCleanB s
  | .cipherB64 _ => true

/-- `Keybox.write`: serialize (`format_file`), envelope-encrypt, clear
the dirty flag. -/
def kbWrite (kb : Keybox) (nonce : Nat) (crcFn lenFn : List Tok → Nat) :
    Except Err (EnvFile (List Tok) × Keybox) :=
  match formatFileToks kb.records kb.columns with
  | .error e => .error e
  | .ok data =>
    match envWrite crcFn lenFn kb.envelope nonce data with
    | .error e => .error e
    | .ok f => .ok (f, { kb with modified := false })

/-- `Keybox.read`: envelope-decrypt, `parse_file`, recompute widths,
clear the dirty flag. -/
def kbRead (kb : Keybox) (file : EnvFile (List Tok)) (p : String)
    (crcFn lenFn : List Tok → Nat) : Except Err Keybox :=
  match envRead crcFn lenFn kb.envelope file p with
  | .error e => .error e
  | .ok (data, env') =>
    .ok { kb with
      records := (parseFileToks data).1,
      columns := (parseFileToks data).2,
      envelope := env',
      column_widths := recomputeWidths (parseFileToks data).2
        (parseFileToks data).1,
      modified := false }

/-- The decrypted password of record `i` as read through the record
proxy (`KeyboxRecord.__getitem__('password')`). -/
def passwordAt (kb : Keybox) (i : Nat) : Except Err Val :=
  match kb.records.get? i with
  | none => .error .keyError
  | some r => encRecGet kb.envelope r "password"

/-- The pipeline of claim C3: `set_passphrase(new)`, then a write/read
round trip opened with the new passphrase on a fresh `Keybox`. -/
def rotateRoundTrip (kb : Keybox) (newp : String) (salt' : List Nat)
    (nf : Nat → Nat) (wnonce : Nat) (freshSalt : List Nat)
    (crcFn lenFn : List Tok → Nat) : Except Err Keybox :=
  match kbSetPassphrase kb newp salt' nf with
  | .error e => .error e
  | .ok kb1 =>
    match kbWrite kb1 wnonce crcFn lenFn with
    | .error e => .error e
    | .ok (file, _) => kbRead (kbInit freshSalt) file newp crcFn lenFn

/-! ### Association-list lemmas -/

theorem lookup_cons_self {β : Type} (k : String) (v : β)
    (t : List (String × β)) : List.lookup k ((k, v) :: t) = some v := by
  simp [List.lookup]

theorem lookup_cons_ne {β : Type} (k k' : String) (v : β)
    (t : List (String × β)) (h : ¬ k = k') :
    List.lookup k ((k', v) :: t) = List.lookup k t := by
  simp [List.lookup, beq_eq_false_iff_ne.mpr h]

theorem lookup_setAssoc_self {β : Type} (l : List (String × β)) (k : String)
    (v : β) : (setAssoc l k v).lookup k = some v := by
  induction l with
  | nil => simp [setAssoc, lookup_cons_self]
  | cons a t ih =>
      rcases a with ⟨k', v'⟩
      by_cases h : k' = k
      · subst h
        simp [setAssoc, lookup_cons_self]
      · rw [setAssoc, if_neg h, lookup_cons_ne k k' v' _ (fun hh => h hh.symm),
          ih]

theorem lookup_setAssoc_ne {β : Type} (l : List (String × β)) (k k' : String)
    (v : β) (h : ¬ k' = k) :
    (setAssoc l k v).lookup k' = l.lookup k' := by
  induction l with
  | nil => rw [setAssoc, lookup_cons_ne k' k v [] h]
  | cons a t ih =>
      rcases a with ⟨k₀, v₀⟩
      by_cases h0 : k₀ = k
      · subst h0
        rw [setAssoc, if_pos rfl, lookup_cons_ne k' k₀ v _ h,
          lookup_cons_ne k' k₀ v₀ _ h]
      · rw [setAssoc, if_neg h0]
        by_cases h1 : k' = k₀
        · subst h1
          rw [lookup_cons_self, lookup_cons_self]
        · rw [lookup_cons_ne k' k₀ v₀ _ h1, lookup_cons_ne k' k₀ v₀ _ h1, ih]

theorem lookup_filter_ne (pairs : List (String × Val)) (k : String) :
    (pairs.filter (fun kv => kv.1 ≠ k)).lookup k = none := by
  induction pairs with
  | nil => simp [List.lookup]
  | cons a t ih =>
      rcases a with ⟨k₀, v₀⟩
      by_cases h : k₀ = k
      · simpa [List.filter, h] using ih
      · simpa [List.filter, h, lookup_cons_ne k k₀ v₀ _ (fun hh => h hh.symm)]
          using ih

theorem lookup_recordSetItem_self (r : Rec) (k : String) (v : Val) :
    (recordSetItem r k v).lookup k =
      some (if valTruthy v then v else .plainStr "") := by
  rw [recordSetItem]
  exact lookup_setAssoc_self _ _ _

theorem lookup_recordSetItem_ne (r : Rec) (k k' : String) (v : Val)
    (h : ¬ k' = k) :
    (recordSetItem r k v).lookup k' = r.lookup k' := by
  rw [recordSetItem]
  exact lookup_setAssoc_ne _ _ _ _ h

theorem lookup_foldl_setAssoc_not_mem (pairs : List (String × Val))
    (acc : Rec) (k : String) (h : k ∉ pairs.map Prod.fst) :
    (pairs.foldl (fun a kv => setAssoc a kv.1 kv.2) acc).lookup k =
      acc.lookup k := by
  induction pairs generalizing acc with
  | nil => rfl
  | cons p t ih =>
      rw [List.map_cons] at h
      have h1 : ¬ k = p.1 := fun hh => h (hh ▸ List.mem_cons_self _ _)
      have h2 : k ∉ t.map Prod.fst := fun hh => h (List.mem_cons_of_mem _ hh)
      rw [List.foldl_cons, ih _ h2]
      exact lookup_setAssoc_ne _ _ _ _ h1

theorem lookup_foldl_setAssoc_of_lookup (pairs : List (String × Val))
    (acc : Rec) (k : String) (v : Val)
    (hnd : (pairs.map Prod.fst).Nodup) (hv : pairs.lookup k = some v) :
    (pairs.foldl (fun a kv => setAssoc a kv.1 kv.2) acc).lookup k =
      some v := by
  induction pairs generalizing acc with
  | nil => simp [List.lookup] at hv
  | cons p t ih =>
      rcases p with ⟨k₀, v₀⟩
      rw [List.map_cons, List.nodup_cons] at hnd
      rcases hnd with ⟨hk0, hnd'⟩
      by_cases hk : k = k₀
      · subst hk
        rw [lookup_cons_self] at hv
        rw [List.foldl_cons,
          lookup_foldl_setAssoc_not_mem _ _ _ hk0,
          lookup_setAssoc_self]
        exact hv
      · rw [lookup_cons_ne _ _ _ _ hk] at hv
        rw [List.foldl_cons]
        exact ih _ hnd' hv

theorem lookup_dictOf_none (pairs : List (String × Val)) (k : String)
    (h : k ∉ pairs.map Prod.fst) : (dictOf pairs).lookup k = none := by
  rw [dictOf, lookup_foldl_setAssoc_not_mem _ _ _ h]
  rfl

theorem lookup_standardize_of_some (columns : List String) (d : Rec)
    (k : String) (v : Val) (h : d.lookup k = some v) :
    (standardizeCols columns d).lookup k = some v := by
  induction columns generalizing d with
  | nil => exact h
  | cons c t ih =>
      rw [standardizeCols, List.foldl_cons]
      by_cases hc : (d.lookup c).isSome
      · rw [if_pos hc]
        exact ih d h
      · rw [if_neg hc]
        apply ih
        have hkc : ¬ k = c := by
          intro hh
          subst hh
          rw [h] at hc
          exact hc rfl
        rw [lookup_recordSetItem_ne _ _ _ _ hkc]
        exact h

theorem lookup_standardize_of_none (columns : List String) (d : Rec)
    (c : String) (hc : c ∈ columns) (h : d.lookup c = none) :
    (standardizeCols columns d).lookup c = some (.plainStr "") := by
  induction columns generalizing d with
  | nil => cases hc
  | cons c₀ t ih =>
      rw [standardizeCols, List.foldl_cons]
      by_cases hcc : c = c₀
      · subst hcc
        rw [if_neg (by simp [h])]
        have hv : (recordSetItem d c (.plainStr "")).lookup c =
            some (.plainStr "") := by
          rw [lookup_recordSetItem_self]
          simp [valTruthy]
        exact lookup_standardize_of_some t _ _ _ hv
      · rcases List.mem_cons.mp hc with h0 | h0
        · exact absurd h0 hcc
        · by_cases hd : (d.lookup c₀).isSome
          · rw [if_pos hd]
            exact ih d h0 h
          · rw [if_neg hd]
            refine ih _ h0 ?_
            rw [lookup_recordSetItem_ne _ _ _ _ hcc]
            exact h

/-- A column among the listed ones that the initial pairs do not mention
is stored as the empty string. -/
theorem lookup_recordInit_absent (columns : List String)
    (pairs : List (String × Val)) (c : String) (hc : c ∈ columns)
    (h : c ∉ pairs.map Prod.fst) :
    (recordInit columns pairs).lookup c = some (.plainStr "") := by
  rw [recordInit]
  exact lookup_standardize_of_none _ _ _ hc (lookup_dictOf_none _ _ h)

/-- A key carried by the (duplicate-free) initial pairs keeps its
value. -/
theorem lookup_recordInit_of_lookup (columns : List String)
    (pairs : List (String × Val)) (c : String) (v : Val)
    (hnd : (pairs.map Prod.fst).Nodup) (hv : pairs.lookup c = some v) :
    (recordInit columns pairs).lookup c = some v := by
  rw [recordInit]
  exact lookup_standardize_of_some _ _ _ _
    (lookup_foldl_setAssoc_of_lookup _ _ _ _ hnd hv)

/-- Every listed column is present after construction. -/
theorem lookup_recordInit_isSome (columns : List String)
    (pairs : List (String × Val)) (c : String) (hc : c ∈ columns) :
    ∃ v, (recordInit columns pairs).lookup c = some v := by
  rcases hd : (dictOf pairs).lookup c with _ | v
  · exact ⟨.plainStr "", lookup_standardize_of_none _ _ _ hc hd⟩
  · exact ⟨v, lookup_standardize_of_some _ _ _ _ hd⟩

/-! ### C10: empty stored passwords -/

/-- A successful `set_passphrase` re-encryption loop implies no record
held the empty-string password (whose `decrypt_base64` raises). -/
theorem rotateRecs_ok_no_empty (prev envNew : Envelope) (nf : Nat → Nat) :
    ∀ (i : Nat) (rs rs' : List Rec),
      rotateRecs prev envNew nf i rs = .ok rs' →
      ∀ r ∈ rs, ¬ r.lookup "password" = some (.plainStr "") := by
  intro i rs
  induction rs generalizing i with
  | nil =>
      intro rs' _ r hr
      cases hr
  | cons a t ih =>
      intro rs' h r hr
      rw [rotateRecs] at h
      rcases List.mem_cons.mp hr with rfl | hr
      · intro hpw
        rw [hpw] at h
        simp [decryptB64] at h
      · split at h
        · simp at h
        · split at h
          · simp at h
          · split at h
            · simp at h
            · split at h
              · simp at h
              · rename_i ts hrec
                exact ih (i + 1) ts hrec r hr

/-- Setting the freshly appended element of a list. -/
theorem set_concat_length {α : Type} (l : List α) (a b : α) :
    (l ++ [a]).set l.length b = l ++ [b] := by
  induction l with
  | nil => rfl
  | cons x t ih => simp [List.set, ih]

/-- `KeyboxRecord.__init__` over a freshly appended record with a
non-empty `mtime`: only the display widths change. -/
theorem mkProxyEffect_append_truthy (kb : Keybox) (r0 : Rec) (now : String)
    (mtv : Val) (hmt : r0.lookup "mtime" = some mtv)
    (htv : valTruthy mtv = true) :
    mkProxyEffect { kb with records := kb.records ++ [r0] }
      kb.records.length now =
      .ok { kb with
        records := kb.records ++ [r0],
        column_widths := r0.foldl
          (fun ws kv => updateWidth ws kv.1 kv.2) kb.column_widths } := by
  have hg : (kb.records ++ [r0]).get? kb.records.length = some r0 :=
    List.get?_concat_length _ _
  simp [mkProxyEffect, hg, hmt, htv]

/-- `KeyboxRecord.__init__` over a freshly appended record with an empty
`mtime`: the record is touched (mtime stamped), the keybox marked
dirty. -/
theorem mkProxyEffect_append_empty (kb : Keybox) (r0 : Rec) (now : String)
    (mtv : Val) (hmt : r0.lookup "mtime" = some mtv)
    (htv : valTruthy mtv = false) :
    mkProxyEffect { kb with records := kb.records ++ [r0] }
      kb.records.length now =
      .ok { kb with
        records := kb.records ++ [recordSetItem r0 "mtime" (.plainStr now)],
        column_widths := (recordSetItem r0 "mtime" (.plainStr now)).foldl
          (fun ws kv => updateWidth ws kv.1 kv.2)
          (updateWidth kb.column_widths "mtime" (.plainStr now)),
        modified := true } := by
  have hg : (kb.records ++ [r0]).get? kb.records.length = some r0 :=
    List.get?_concat_length _ _
  have hg2 : (kb.records ++ [recordSetItem r0 "mtime" (.plainStr now)]).get?
      kb.records.length = some (recordSetItem r0 "mtime" (.plainStr now)) :=
    List.get?_concat_length _ _
  simp [mkProxyEffect, hg, hmt, htv, touchAt, set_concat_length, hg2]

/-- C10: `add_record` with an empty (or omitted) `password` kwarg stores
the password field as the literal empty string, unencrypted; and for
every keybox holding at least one record whose stored password is the
empty string, `Keybox.set_passphrase` raises (the empty string is not a
decryptable ciphertext: `decrypt_base64('')` fails) instead of
completing the rotation. -/
theorem claim_C10_empty_password_blocks_rotation
    (kb : Keybox) (pairs : List (String × Val)) (nonceCtr : Nat)
    (now newp : String) (salt' : List Nat) (nf : Nat → Nat)
    (hpw : pairs.lookup "password" = none ∨
      pairs.lookup "password" = some (.plainStr ""))
    (hpc : "password" ∈ kb.columns) (hmc : "mtime" ∈ kb.columns) :
    (∃ kb' ctr r, addRecord kb pairs nonceCtr now = .ok (kb', ctr) ∧
      kb'.records.get? kb.records.length = some r ∧
      r.lookup "password" = some (.plainStr "")) ∧
    ∀ kb0 : Keybox,
      (∃ r ∈ kb0.records, r.lookup "password" = some (.plainStr "")) →
      ∀ kb'', kbSetPassphrase kb0 newp salt' nf ≠ .ok kb'' := by
  have hpwv : (pairs.lookup "password").getD (.plainStr "") =
      .plainStr "" := by
    rcases hpw with h | h <;> simp [h]
  have hpwmem : "password" ∉
      (pairs.filter (fun kv => kv.1 ≠ "password")).map Prod.fst := by
    intro hmem
    rcases List.mem_map.mp hmem with ⟨kv, hkv, hk⟩
    have := List.of_mem_filter hkv
    simp [hk] at this
  have hpw0 : (recordInit kb.columns
      (pairs.filter (fun kv => kv.1 ≠ "password"))).lookup "password" =
      some (.plainStr "") :=
    lookup_recordInit_absent _ _ _ hpc hpwmem
  obtain ⟨mtv, hmt0⟩ := lookup_recordInit_isSome kb.columns
    (pairs.filter (fun kv => kv.1 ≠ "password")) "mtime" hmc
  have hadd : addRecord kb pairs nonceCtr now =
      (mkProxyEffect { kb with records := kb.records ++
          [recordInit kb.columns (pairs.filter (fun kv => kv.1 ≠ "password"))] }
        kb.records.length now).map (fun kb2 => (kb2, nonceCtr)) := by
    simp [addRecord, hpwv, valTruthy]
  constructor
  · cases hmt : valTruthy mtv with
    | true =>
        rw [mkProxyEffect_append_truthy kb _ now _ hmt0 hmt] at hadd
        simp only [Except.map] at hadd
        exact ⟨_, nonceCtr, _, hadd, List.get?_concat_length _ _, hpw0⟩
    | false =>
        rw [mkProxyEffect_append_empty kb _ now _ hmt0 hmt] at hadd
        simp only [Except.map] at hadd
        refine ⟨_, nonceCtr, _, hadd, List.get?_concat_length _ _, ?_⟩
        rw [recordSetItem, lookup_setAssoc_ne _ _ _ _ (by decide)]
        exact hpw0
  · intro kb0 hex kb'' hcontra
    rcases hex with ⟨r, hr, hrpw⟩
    simp only [kbSetPassphrase] at hcontra
    split at hcontra
    · simp at hcontra
    · rename_i recs' hrot
      exact rotateRecs_ok_no_empty _ _ _ _ _ _ hrot r hr hrpw

/-- C10 witness: a concrete keybox and record kwargs without password. -/
theorem claim_C10_empty_password_blocks_rotation_witness :
    (∃ kb' ctr r, addRecord (kbInit (List.replicate 16 0))
        [("site", Val.plainStr "x")] 0 "T" = .ok (kb', ctr) ∧
      kb'.records.get? (kbInit (List.replicate 16 0)).records.length =
        some r ∧
      r.lookup "password" = some (.plainStr "")) ∧
    ∀ kb0 : Keybox,
      (∃ r ∈ kb0.records, r.lookup "password" = some (.plainStr "")) →
      ∀ kb'', kbSetPassphrase kb0 "new" (List.replicate 16 1)
        (fun _ => 0) ≠ .ok kb'' :=
  claim_C10_empty_password_blocks_rotation (kbInit (List.replicate 16 0))
    [("site", Val.plainStr "x")] 0 "T" "new" (List.replicate 16 1)
    (fun _ => 0) (by left; decide) (by decide) (by decide)

/-! ### C9: read-only access -/

/-- Constructing a proxy over a record whose `mtime` is non-empty only
touches the display widths. -/
theorem mkProxyEffect_truthy (kb : Keybox) (i : Nat) (now : String)
    (r : Rec) (hi : kb.records.get? i = some r) (v : Val)
    (hmt : r.lookup "mtime" = some v) (htv : valTruthy v = true) :
    mkProxyEffect kb i now =
      .ok { kb with
        column_widths := r.foldl (fun ws kv => updateWidth ws kv.1 kv.2)
          kb.column_widths } := by
  rw [List.get?_eq_getElem?] at hi
  simp [mkProxyEffect, hi, hmt, htv]

/-- A full proxy pass over indices into a keybox whose listed records
all carry non-empty `mtime` leaves records and the dirty flag unchanged. -/
theorem proxyAllGo_preserves (now : String) :
    ∀ (idxs : List Nat) (kb : Keybox),
      (∀ i ∈ idxs, i < kb.records.length) →
      (∀ r ∈ kb.records, ∃ v, r.lookup "mtime" = some v ∧
        valTruthy v = true) →
      ∃ kb', proxyAllGo now idxs kb = .ok kb' ∧
        kb'.records = kb.records ∧ kb'.modified = kb.modified := by
  intro idxs
  induction idxs with
  | nil =>
      intro kb _ _
      exact ⟨kb, rfl, rfl, rfl⟩
  | cons i rest ih =>
      intro kb hvalid hmt
      have hi : i < kb.records.length := hvalid i (List.mem_cons_self _ _)
      have hg : kb.records.get? i = some (kb.records.get ⟨i, hi⟩) :=
        List.get?_eq_get hi
      have hmem : kb.records.get ⟨i, hi⟩ ∈ kb.records :=
        List.get_mem _ _ hi
      rcases hmt _ hmem with ⟨v, hv, htv⟩
      have hstep := mkProxyEffect_truthy kb i now _ hg v hv htv
      rcases ih { kb with
          column_widths := (kb.records.get ⟨i, hi⟩).foldl
            (fun ws kv => updateWidth ws kv.1 kv.2) kb.column_widths }
          (by intro j hj; exact hvalid j (List.mem_cons_of_mem _ hj))
          (by intro r hr; exact hmt r hr)
        with ⟨kb', hrun, hrecs, hmod⟩
      exact ⟨kb', by rw [proxyAllGo, hstep]; exact hrun, hrecs, hmod⟩

/-- C9 (amended): obtaining record proxies through iteration or indexing
leaves every record's columns (including `mtime`) and the dirty flag
unchanged, provided every record's `mtime` is non-empty; a record with
an empty `mtime` is touched (mtime stamped, keybox marked dirty) by the
proxy constructor itself. -/
theorem claim_C9_readonly_access_preserves_state (kb : Keybox)
    (now : String)
    (h : ∀ r ∈ kb.records, ∃ v, r.lookup "mtime" = some v ∧
      valTruthy v = true) :
    (∃ kb', proxyAll kb now = .ok kb' ∧
      kb'.records = kb.records ∧ kb'.modified = kb.modified) ∧
    ∀ i, i < kb.records.length →
      ∃ kbi, mkProxyEffect kb i now = .ok kbi ∧
        kbi.records = kb.records ∧ kbi.modified = kb.modified := by
  constructor
  · exact proxyAllGo_preserves now (List.range kb.records.length) kb
      (by intro j hj; exact List.mem_range.mp hj) h
  · intro i hi
    have hg : kb.records.get? i = some (kb.records.get ⟨i, hi⟩) :=
      List.get?_eq_get hi
    rcases h _ (List.get_mem _ _ hi) with ⟨v, hv, htv⟩
    exact ⟨_, mkProxyEffect_truthy kb i now _ hg v hv htv, rfl, rfl⟩

/-- A concrete keybox whose single record has an empty `mtime`. -/
def kbC9cex : Keybox :=
  { records := [recordInit COLUMNS []], columns := COLUMNS,
    column_widths := [], envelope := envInit (List.replicate 16 0),
    modified := false }

/-- A concrete keybox whose single record has a non-empty `mtime`. -/
def kbC9wit : Keybox :=
  { records := [recordInit COLUMNS
      [("mtime", Val.plainStr "2021-01-01 00:00:00")]],
    columns := COLUMNS, column_widths := [],
    envelope := envInit (List.replicate 16 0), modified := false }

/-- C9 counterexample: obtaining the proxy of a record with empty
`mtime` (reachable by `read`ing a file with an empty mtime column)
rewrites its `mtime` and sets the dirty flag. -/
theorem claim_C9_counterexample :
    ∃ kb', mkProxyEffect kbC9cex 0 "2024-01-01 00:00:00" = .ok kb' ∧
      ¬ kb'.records = kbC9cex.records ∧ kb'.modified = true ∧
      kbC9cex.modified = false := by
  refine ⟨_, rfl, by decide, by decide, rfl⟩

/-- C9 witness: concrete keybox with stamped mtime. -/
theorem claim_C9_readonly_access_preserves_state_witness :
    (∃ kb', proxyAll kbC9wit "T" = .ok kb' ∧
      kb'.records = kbC9wit.records ∧ kb'.modified = kbC9wit.modified) ∧
    ∀ i, i < kbC9wit.records.length →
      ∃ kbi, mkProxyEffect kbC9wit i "T" = .ok kbi ∧
        kbi.records = kbC9wit.records ∧ kbi.modified = kbC9wit.modified :=
  claim_C9_readonly_access_preserves_state kbC9wit "T" (by
    intro r hr
    rw [kbC9wit, List.mem_singleton] at hr
    subst hr
    exact ⟨Val.plainStr "2021-01-01 00:00:00", by decide, by decide⟩)

/-! ### File-format round-trip lemmas -/

theorem filterMap_ch (l : List Char) :
    (l.map Tok.ch).filterMap
      (fun t => match t with | .ch c => some c | .ct _ => none) = l := by
  induction l with
  | nil => rfl
  | cons c t ih => simp [ih]

theorem toksStr_strToks (s : String) : toksStr (strToks s) = s := by
  rw [toksStr, strToks, filterMap_ch]

theorem tokListVal_valToks (v : Val) : tokListVal (valToks v) = v := by
  cases v with
  | cipherB64 c => rfl
  | plainStr s =>
      cases s with
      | mk data =>
          cases data with
          | nil => rfl
          | cons c t =>
              show Val.plainStr (toksStr (Tok.ch c :: t.map Tok.ch)) =
                Val.plainStr ⟨c :: t⟩
              rw [show Tok.ch c :: t.map Tok.ch =
                strToks ⟨c :: t⟩ from rfl, toksStr_strToks]

/-- Tokens free of tab and newline separators. -/
def toksClean (l : List Tok) : Prop :=
  ∀ t ∈ l, ¬ t = Tok.ch '\t' ∧ ¬ t = Tok.ch '\n'

theorem strToks_clean (s : String) (h : strCleanB s = true) :
    toksClean (strToks s) := by
  intro t ht
  rcases List.mem_map.mp ht with ⟨c, hc, rfl⟩
  rw [strCleanB, List.all_eq_true] at h
  rcases h c hc with hcc
  simp only [Bool.and_eq_true, Bool.not_eq_true', beq_eq_false_iff_ne,
    ne_eq] at hcc
  exact ⟨fun hh => hcc.1 (Tok.ch.inj hh), fun hh => hcc.2 (Tok.ch.inj hh)⟩

theorem valToks_clean (v : Val) (h : valCleanB v = true) :
    toksClean (valToks v) := by
  cases v with
  | plainStr s => exact strToks_clean s h
  | cipherB64 c =>
      intro t ht
      rw [valToks, List.mem_singleton] at ht
      subst ht
      exact ⟨fun hh => Tok.noConfusion hh, fun hh => Tok.noConfusion hh⟩

theorem splitTabsTok_no_tab (l : List Tok)
    (h : ∀ t ∈ l, ¬ t = Tok.ch '\t') : splitTabsTok l = [l] := by
  induction l with
  | nil => rfl
  | cons c cs ih =>
      have hc := h c (List.mem_cons_self _ _)
      have ih' := ih (fun t ht => h t (List.mem_cons_of_mem _ ht))
      simp only [splitTabsTok, if_neg hc, ih']

theorem splitTabsTok_append_tab (x rest : List Tok)
    (hx : ∀ t ∈ x, ¬ t = Tok.ch '\t') :
    splitTabsTok (x ++ Tok.ch '\t' :: rest) = x :: splitTabsTok rest := by
  induction x with
  | nil =>
      rw [List.nil_append, splitTabsTok, if_pos rfl]
  | cons c cs ih =>
      have hc := hx c (List.mem_cons_self _ _)
      have ih' := ih (fun t ht => hx t (List.mem_cons_of_mem _ ht))
      rw [List.cons_append, splitTabsTok, if_neg hc, ih']

theorem mem_joinTabs (fs : List (List Tok)) (t : Tok)
    (h : t ∈ joinTabs fs) : (∃ f ∈ fs, t ∈ f) ∨ t = Tok.ch '\t' := by
  induction fs with
  | nil => cases h
  | cons x ys ih =>
      cases ys with
      | nil => exact .inl ⟨x, List.mem_cons_self _ _, h⟩
      | cons y t2 =>
          rw [joinTabs] at h
          rcases List.mem_append.mp h with hx | hrest
          · exact .inl ⟨x, List.mem_cons_self _ _, hx⟩
          · rcases List.mem_cons.mp hrest with rfl | hj
            · exact .inr rfl
            · rcases ih hj with ⟨f, hf, htf⟩ | htab
              · exact .inl ⟨f, List.mem_cons_of_mem _ hf, htf⟩
              · exact .inr htab

theorem splitTabsTok_joinTabs (fs : List (List Tok)) (hne : ¬ fs = [])
    (h : ∀ f ∈ fs, ∀ t ∈ f, ¬ t = Tok.ch '\t') :
    splitTabsTok (joinTabs fs) = fs := by
  induction fs with
  | nil => exact absurd rfl hne
  | cons x ys ih =>
      cases ys with
      | nil => exact splitTabsTok_no_tab x (h x (List.mem_cons_self _ _))
      | cons y t2 =>
          rw [joinTabs,
            splitTabsTok_append_tab _ _ (h x (List.mem_cons_self _ _)),
            ih (by simp) (fun f hf => h f (List.mem_cons_of_mem _ hf))]

theorem pyRstripNlTok_append_nl (l : List Tok)
    (h : ∀ t ∈ l, ¬ t = Tok.ch '\n') :
    pyRstripNlTok (l ++ [Tok.ch '\n']) = l := by
  have hrev : ∀ t ∈ l.reverse, ¬ t = Tok.ch '\n' := by
    intro t ht
    exact h t (List.mem_reverse.mp ht)
  rw [pyRstripNlTok, List.reverse_append]
  show (([Tok.ch '\n'].reverse ++ l.reverse).dropWhile
    (fun t => t = Tok.ch '\n')).reverse = l
  rw [List.reverse_singleton]
  have h1 : ((Tok.ch '\n' :: l.reverse).dropWhile
      (fun t => t = Tok.ch '\n')) =
      l.reverse.dropWhile (fun t => t = Tok.ch '\n') := by
    simp [List.dropWhile]
  rw [List.singleton_append, h1]
  have h2 : l.reverse.dropWhile (fun t => t = Tok.ch '\n') = l.reverse := by
    cases hr : l.reverse with
    | nil => rfl
    | cons c t =>
        have hc : ¬ c = Tok.ch '\n' :=
          hrev c (hr ▸ List.mem_cons_self _ _)
        simp [List.dropWhile, hc]
  rw [h2, List.reverse_reverse]

theorem splitLinesGo_append_nl (l : List Tok)
    (h : ∀ t ∈ l, ¬ t = Tok.ch '\n') :
    ∀ (acc rest : List Tok),
      splitLinesGo acc (l ++ Tok.ch '\n' :: rest) =
        (acc.reverse ++ l ++ [Tok.ch '\n']) :: splitLinesGo [] rest := by
  induction l with
  | nil =>
      intro acc rest
      simp [splitLinesGo]
  | cons c cs ih =>
      intro acc rest
      have hc := h c (List.mem_cons_self _ _)
      have ih' := ih (fun t ht => h t (List.mem_cons_of_mem _ ht))
        (c :: acc) rest
      rw [List.cons_append, splitLinesGo, if_neg hc, ih']
      simp [List.reverse_cons, List.append_assoc]

theorem splitLines_line (l rest : List Tok)
    (h : ∀ t ∈ l, ¬ t = Tok.ch '\n') :
    splitLines ((l ++ [Tok.ch '\n']) ++ rest) =
      (l ++ [Tok.ch '\n']) :: splitLines rest := by
  rw [List.append_assoc, List.singleton_append, splitLines,
    splitLinesGo_append_nl l h [] rest]
  rfl

/-- `fieldsToks` succeeds exactly on records carrying every column. -/
theorem fieldsToks_isOk (r : Rec) (columns : List String)
    (h : ∀ c ∈ columns, ∃ v, r.lookup c = some v) :
    ∃ fs, fieldsToks r columns = .ok fs := by
  induction columns with
  | nil => exact ⟨[], rfl⟩
  | cons c cs ih =>
      rcases h c (List.mem_cons_self _ _) with ⟨v, hv⟩
      rcases ih (fun c' hc' => h c' (List.mem_cons_of_mem _ hc')) with
        ⟨fs, hfs⟩
      exact ⟨valToks v :: fs, by rw [fieldsToks, hv, hfs]⟩

theorem fieldsToks_length (r : Rec) :
    ∀ (columns : List String) (fs : List (List Tok)),
      fieldsToks r columns = .ok fs → fs.length = columns.length := by
  intro columns
  induction columns with
  | nil =>
      intro fs hfs
      rw [fieldsToks] at hfs
      cases hfs
      rfl
  | cons c cs ih =>
      intro fs hfs
      rw [fieldsToks] at hfs
      split at hfs
      · cases hfs
      · split at hfs
        · cases hfs
        · rename_i rest hrest
          cases hfs
          simp [ih rest hrest]

theorem fieldsToks_clean (r : Rec) :
    ∀ (columns : List String) (fs : List (List Tok)),
      fieldsToks r columns = .ok fs →
      (∀ c ∈ columns, ∃ v, r.lookup c = some v ∧ valCleanB v = true) →
      ∀ f ∈ fs, toksClean f := by
  intro columns
  induction columns with
  | nil =>
      intro fs hfs _ f hf
      rw [fieldsToks] at hfs
      cases hfs
      cases hf
  | cons c cs ih =>
      intro fs hfs h f hf
      rw [fieldsToks] at hfs
      split at hfs
      · cases hfs
      · rename_i v hv
        split at hfs
        · cases hfs
        · rename_i rest hrest
          cases hfs
          rcases List.mem_cons.mp hf with rfl | hf'
          · rcases h c (List.mem_cons_self _ _) with ⟨v', hv', hcl⟩
            rw [hv] at hv'
            cases hv'
            exact valToks_clean _ hcl
          · exact ih rest hrest
              (fun c' hc' => h c' (List.mem_cons_of_mem _ hc')) f hf'

/-- The first binding of `c` in `columns.zip (fs.map tokListVal)` is the
value the record stores at `c` (every occurrence of a column name is
rendered from the same `record[c]`). -/
theorem zip_fields_lookup (r : Rec) :
    ∀ (columns : List String) (fs : List (List Tok)),
      fieldsToks r columns = .ok fs →
      ∀ c ∈ columns, ∀ v, r.lookup c = some v →
        (columns.zip (fs.map tokListVal)).lookup c = some v := by
  intro columns
  induction columns with
  | nil =>
      intro fs _ c hc
      cases hc
  | cons c0 cs ih =>
      intro fs hfs c hc v hv
      rw [fieldsToks] at hfs
      split at hfs
      · cases hfs
      · rename_i v0 hv0
        split at hfs
        · cases hfs
        · rename_i rest hrest
          cases hfs
          by_cases hcc : c = c0
          · subst hcc
            rw [hv0] at hv
            cases hv
            rw [List.map_cons, List.zip_cons_cons, lookup_cons_self,
              tokListVal_valToks]
          · rcases List.mem_cons.mp hc with rfl | hc'
            · exact absurd rfl hcc
            · rw [List.map_cons, List.zip_cons_cons,
                lookup_cons_ne _ _ _ _ hcc]
              exact ih rest hrest c hc' v hv

/-- Parsing back a formatted record line recovers every stored column
value, given tab/newline-free values, every column present, and
duplicate-free column names. -/
theorem parseRecordToks_roundtrip (r : Rec) (columns : List String)
    (fs : List (List Tok)) (hfs : fieldsToks r columns = .ok fs)
    (hne : ¬ columns = []) (hnd : columns.Nodup)
    (hcl : ∀ c ∈ columns, ∃ v, r.lookup c = some v ∧ valCleanB v = true)
    (c : String) (hc : c ∈ columns) (v : Val) (hv : r.lookup c = some v) :
    (parseRecordToks columns (joinTabs fs ++ [Tok.ch '\n'])).lookup c =
      some v := by
  have hclean := fieldsToks_clean r columns fs hfs hcl
  have hlen := fieldsToks_length r columns fs hfs
  have hfsne : ¬ fs = [] := by
    intro hh
    subst hh
    cases columns with
    | nil => exact hne rfl
    | cons a b => cases hlen
  have hnl : ∀ t ∈ joinTabs fs, ¬ t = Tok.ch '\n' := by
    intro t ht
    rcases mem_joinTabs _ _ ht with ⟨f, hf, htf⟩ | rfl
    · exact (hclean f hf t htf).2
    · intro hh
      cases hh
  rw [parseRecordToks, pyRstripNlTok_append_nl _ hnl,
    splitTabsTok_joinTabs fs hfsne
      (fun f hf t ht => (hclean f hf t ht).1)]
  apply lookup_recordInit_of_lookup
  · rw [List.map_fst_zip]
    · exact hnd
    · rw [List.length_map, hlen]
  · exact zip_fields_lookup r columns fs hfs c hc v hv

/-- Parsing back a formatted header recovers the column names, given
tab/newline-free names. -/
theorem parseHeaderToks_roundtrip (columns : List String)
    (hne : ¬ columns = [])
    (hcc : ∀ c ∈ columns, strCleanB c = true) :
    parseHeaderToks (formatHeaderToks columns) = columns := by
  have hclean : ∀ f ∈ columns.map strToks, toksClean f := by
    intro f hf
    rcases List.mem_map.mp hf with ⟨c, hc, rfl⟩
    exact strToks_clean c (hcc c hc)
  have hnl : ∀ t ∈ joinTabs (columns.map strToks), ¬ t = Tok.ch '\n' := by
    intro t ht
    rcases mem_joinTabs _ _ ht with ⟨f, hf, htf⟩ | rfl
    · exact (hclean f hf t htf).2
    · intro hh
      cases hh
  rw [formatHeaderToks, parseHeaderToks, pyRstripNlTok_append_nl _ hnl,
    splitTabsTok_joinTabs _ (by simpa using hne)
      (fun f hf t ht => (hclean f hf t ht).1), List.map_map]
  have : ∀ l : List String, l.map (toksStr ∘ strToks) = l := by
    intro l
    induction l with
    | nil => rfl
    | cons a t ih => simp [ih, toksStr_strToks, Function.comp]
  exact this columns

/-- The record lines of `format_file` split back into one line per
record, each parsing to a record that preserves every column value. -/
theorem recordsToks_roundtrip (columns : List String)
    (hne : ¬ columns = []) (hnd : columns.Nodup) :
    ∀ (records : List Rec),
      (∀ r ∈ records, ∀ c ∈ columns,
        ∃ v, r.lookup c = some v ∧ valCleanB v = true) →
      ∃ body, recordsToks columns records = .ok body ∧
        (splitLines body).length = records.length ∧
        ∀ i r, records.get? i = some r →
          ∃ pr, ((splitLines body).map
              (parseRecordToks columns)).get? i = some pr ∧
            ∀ c v, c ∈ columns → r.lookup c = some v →
              pr.lookup c = some v := by
  intro records
  induction records with
  | nil =>
      intro _
      refine ⟨[], rfl, rfl, ?_⟩
      intro i r hr
      rw [List.get?_eq_getElem?] at hr
      simp at hr
  | cons r rs ih =>
      intro h
      have hr := h r (List.mem_cons_self _ _)
      rcases fieldsToks_isOk r columns
          (fun c hc => ⟨(hr c hc).choose, (hr c hc).choose_spec.1⟩) with
        ⟨fs, hfs⟩
      rcases ih (fun r' hr' => h r' (List.mem_cons_of_mem _ hr')) with
        ⟨body, hbody, hblen, hpt⟩
      refine ⟨(joinTabs fs ++ [Tok.ch '\n']) ++ body, ?_, ?_, ?_⟩
      · rw [recordsToks, formatRecordToks, hfs]
        simp only [Except.map]
        rw [hbody]
      · have hclean := fieldsToks_clean r columns fs hfs hr
        have hnl : ∀ t ∈ joinTabs fs, ¬ t = Tok.ch '\n' := by
          intro t ht
          rcases mem_joinTabs _ _ ht with ⟨f, hf, htf⟩ | rfl
          · exact (hclean f hf t htf).2
          · intro hh
            cases hh
        rw [splitLines_line _ _ hnl]
        simp [hblen]
      · have hclean := fieldsToks_clean r columns fs hfs hr
        have hnl : ∀ t ∈ joinTabs fs, ¬ t = Tok.ch '\n' := by
          intro t ht
          rcases mem_joinTabs _ _ ht with ⟨f, hf, htf⟩ | rfl
          · exact (hclean f hf t htf).2
          · intro hh
            cases hh
        rw [splitLines_line _ _ hnl]
        intro i rr hrr
        match i with
        | 0 =>
            have h0 : rr = r := by
              have hs : some r = some rr := hrr
              exact (Option.some.inj hs).symm
            subst h0
            exact ⟨_, rfl, fun c v hc hv =>
              parseRecordToks_roundtrip rr columns fs hfs hne hnd hr
                c hc v hv⟩
        | i + 1 =>
            exact hpt i rr hrr

/-- `parse_file` after `format_file`: the column list is recovered
exactly, and each parsed record preserves every stored column value —
provided the column names and stored values are free of tab/newline,
every record carries every column, and the column names are
duplicate-free. -/
theorem parseFileToks_roundtrip (columns : List String)
    (records : List Rec) (hne : ¬ columns = []) (hnd : columns.Nodup)
    (hcc : ∀ c ∈ columns, strCleanB c = true)
    (hrec : ∀ r ∈ records, ∀ c ∈ columns,
      ∃ v, r.lookup c = some v ∧ valCleanB v = true) :
    ∃ data, formatFileToks records columns = .ok data ∧
      (parseFileToks data).2 = columns ∧
      (parseFileToks data).1.length = records.length ∧
      ∀ i r, records.get? i = some r →
        ∃ pr, (parseFileToks data).1.get? i = some pr ∧
          ∀ c v, c ∈ columns → r.lookup c = some v →
            pr.lookup c = some v := by
  rcases recordsToks_roundtrip columns hne hnd records hrec with
    ⟨body, hbody, hblen, hpt⟩
  refine ⟨formatHeaderToks columns ++ body, ?_, ?_⟩
  · rw [formatFileToks, hbody]
    rfl
  · have hhclean : ∀ f ∈ columns.map strToks, toksClean f := by
      intro f hf
      rcases List.mem_map.mp hf with ⟨c, hc, rfl⟩
      exact strToks_clean c (hcc c hc)
    have hhnl : ∀ t ∈ joinTabs (columns.map strToks),
        ¬ t = Tok.ch '\n' := by
      intro t ht
      rcases mem_joinTabs _ _ ht with ⟨f, hf, htf⟩ | rfl
      · exact (hhclean f hf t htf).2
      · intro hh
        cases hh
    have hsplit : splitLines (formatHeaderToks columns ++ body) =
        formatHeaderToks columns :: splitLines body := by
      rw [formatHeaderToks]
      exact splitLines_line _ _ hhnl
    have hparse : parseFileToks (formatHeaderToks columns ++ body) =
        ((splitLines body).map
          (parseRecordToks (parseHeaderToks (formatHeaderToks columns))),
         parseHeaderToks (formatHeaderToks columns)) := by
      rw [parseFileToks, hsplit]
    rw [hparse, parseHeaderToks_roundtrip columns hne hcc]
    refine ⟨rfl, by simpa using hblen, hpt⟩

/-! ### C3: passphrase rotation -/

/-- The `set_passphrase` loop on well-formed records (each password the
per-value encryption of some string under the current key `k`) succeeds
and replaces each record's password by the re-encryption of the same
plaintext under the new key `k'`, leaving every other column in place. -/
theorem rotateRecs_ok_of_wellformed (prev envNew : Envelope)
    (k k' : KdfKey) (nf : Nat → Nat) (hprev : prev.box = some k)
    (hnew : envNew.box = some k') :
    ∀ (i : Nat) (rs : List Rec),
      (∀ r ∈ rs, ∃ s n,
        r.lookup "password" = some (.cipherB64 ⟨k, n, s⟩)) →
      ∃ rs', rotateRecs prev envNew nf i rs = .ok rs' ∧
        rs'.length = rs.length ∧
        ∀ j, j < rs.length → ∃ r s n,
          rs.get? j = some r ∧
          r.lookup "password" = some (.cipherB64 ⟨k, n, s⟩) ∧
          rs'.get? j = some (recordSetItem r "password"
            (.cipherB64 ⟨k', nf (i + j), s⟩)) := by
  intro i rs
  induction rs generalizing i with
  | nil =>
      intro _
      exact ⟨[], rfl, rfl, by intro j hj; simp at hj⟩
  | cons a t ih =>
      intro hwf
      rcases hwf a (List.mem_cons_self _ _) with ⟨s, n, ha⟩
      rcases ih (i + 1) (fun r hr => hwf r (List.mem_cons_of_mem _ hr))
        with ⟨ts, hts, htlen, hj⟩
      refine ⟨recordSetItem a "password" (.cipherB64 ⟨k', nf i, s⟩) :: ts,
        ?_, by simp [htlen], ?_⟩
      · rw [rotateRecs, ha]
        simp [decryptB64, envDecrypt, hprev, encryptB64, envEncrypt,
          hnew, hts, Except.map]
      · intro j hjlt
        match j with
        | 0 =>
            exact ⟨a, s, n, rfl, ha, rfl⟩
        | j + 1 =>
            obtain ⟨r, s', n', h1, h2, h3⟩ :=
              hj j (by simpa using Nat.lt_of_succ_lt_succ hjlt)
            refine ⟨r, s', n', h1, h2, ?_⟩
            have harith : i + 1 + j = i + (j + 1) := by omega
            rw [← harith]
            exact h3

/-- Reading the password of record `i` through the proxy when it is the
per-value encryption of `s` under the keybox envelope's key. -/
theorem passwordAt_cipher (kb : Keybox) (i : Nat) (r : Rec) (k : KdfKey)
    (n : Nat) (s : String) (hg : kb.records.get? i = some r)
    (hb : kb.envelope.box = some k)
    (hpw : r.lookup "password" = some (.cipherB64 ⟨k, n, s⟩)) :
    passwordAt kb i = .ok (.plainStr s) := by
  rw [List.get?_eq_getElem?] at hg
  simp [passwordAt, hg, encRecGet, hpw, valTruthy, decryptB64,
    envDecrypt, hb, Except.map]

/-- The C3 pipeline unfolded on a successful rotation and
serialization: what `read` sees is exactly `parse_file` of the
serialized rotated vault. -/
theorem rotateRoundTrip_parse (kb : Keybox) (newp : String)
    (salt' freshSalt : List Nat) (nf : Nat → Nat) (wnonce : Nat)
    (crcFn lenFn : List Tok → Nat) (recs' : List Rec) (data : List Tok)
    (hrot : rotateRecs kb.envelope (envSetPassphrase (envInit salt') newp)
      nf 0 kb.records = .ok recs')
    (hfmt : formatFileToks recs' kb.columns = .ok data)
    (hsalt' : salt'.length = SALTBYTES)
    (hlen : lenFn data + 40 < 2 ^ 32) (hcrc : crcFn data < 2 ^ 32) :
    rotateRoundTrip kb newp salt' nf wnonce freshSalt crcFn lenFn =
      .ok { records := (parseFileToks data).1,
            columns := (parseFileToks data).2,
            column_widths := recomputeWidths (parseFileToks data).2
              (parseFileToks data).1,
            envelope := postReadEnv (envInit freshSalt)
              (envSetPassphrase (envInit salt') newp) newp,
            modified := false } := by
  have hset : kbSetPassphrase kb newp salt' nf =
      .ok { kb with
        envelope := envSetPassphrase (envInit salt') newp,
        records := recs', modified := true } := by
    simp [kbSetPassphrase, hrot]
  have hbox2 : (envSetPassphrase (envInit salt') newp).box =
      some (deriveKey (envSetPassphrase (envInit salt') newp) newp) := by
    simp [envSetPassphrase, deriveKey, envInit]
  have hrw := envRead_envWrite crcFn lenFn (envInit freshSalt)
    (envSetPassphrase (envInit salt') newp) newp wnonce data hbox2
    (by simp [envSetPassphrase, envInit])
    (by simp [envSetPassphrase, envInit, PWHASH_ARGON2I])
    (by simp [envSetPassphrase, envInit, OPSLIMIT_INTERACTIVE])
    (by simp [envSetPassphrase, envInit, MEMLIMIT_INTERACTIVE])
    (by simpa [envSetPassphrase, envInit] using hsalt')
    hlen hcrc
  rcases hw : envWrite crcFn lenFn (envSetPassphrase (envInit salt') newp)
      wnonce data with e | file
  · rw [hw] at hrw
    simp [Except.bind] at hrw
  · rw [hw] at hrw
    simp only [Except.bind] at hrw
    simp [rotateRoundTrip, hset, kbWrite, hfmt, hw, kbRead, kbInit, hrw]

/-- C3 (amended): after `Keybox.set_passphrase(new)` followed by a
write/read round trip opened with the new passphrase, every record's
decrypted password (read through the record proxy) equals its
pre-rotation decrypted password — provided every record's stored
password is non-empty, i.e. the per-value encryption of some string
under the keybox's current key (an empty stored password makes
`set_passphrase` raise instead; see C10), and provided the vault is
serializable without corruption: duplicate-free tab/newline-free column
names, every record carrying every column, and every stored value free
of tab/newline (a literal tab or newline inside a stored value shifts
the tab/line splitting of `parse_file` and the password does not
survive the round trip). -/
theorem claim_C3_rotation_preserves_passwords
    (kb : Keybox) (k : KdfKey) (newp : String)
    (salt' freshSalt : List Nat) (nf : Nat → Nat) (wnonce : Nat)
    (crcFn lenFn : List Tok → Nat)
    (hbox : kb.envelope.box = some k)
    (hpc : "password" ∈ kb.columns) (hnd : kb.columns.Nodup)
    (hcc : ∀ c ∈ kb.columns, strCleanB c = true)
    (hval : ∀ r ∈ kb.records, ∀ c ∈ kb.columns,
      ∃ v, r.lookup c = some v ∧ valCleanB v = true)
    (hrec : ∀ r ∈ kb.records, ∃ s n,
      r.lookup "password" = some (.cipherB64 ⟨k, n, s⟩))
    (hsalt' : salt'.length = SALTBYTES)
    (hlen : ∀ d, lenFn d + 40 < 2 ^ 32) (hcrc : ∀ d, crcFn d < 2 ^ 32) :
    ∃ kb'', rotateRoundTrip kb newp salt' nf wnonce freshSalt crcFn lenFn
        = .ok kb'' ∧
      ∀ i, i < kb.records.length →
        ∃ s, passwordAt kb i = .ok (.plainStr s) ∧
          passwordAt kb'' i = .ok (.plainStr s) := by
  have hne : ¬ kb.columns = [] := by
    intro hh
    rw [hh] at hpc
    cases hpc
  have hnewbox : (envSetPassphrase (envInit salt') newp).box =
      some (deriveKey (envInit salt') newp) := by
    simp [envSetPassphrase]
  obtain ⟨recs', hrot, hrlen, hj⟩ := rotateRecs_ok_of_wellformed
    kb.envelope (envSetPassphrase (envInit salt') newp) k
    (deriveKey (envInit salt') newp) nf hbox hnewbox 0 kb.records hrec
  have hval' : ∀ r' ∈ recs', ∀ c ∈ kb.columns,
      ∃ v, r'.lookup c = some v ∧ valCleanB v = true := by
    intro r' hr' c hc
    rcases List.mem_iff_get?.mp hr' with ⟨j, hjg⟩
    obtain ⟨hjlt', _⟩ := List.get?_eq_some.mp hjg
    have hjlt : j < kb.records.length := by
      rw [← hrlen]
      exact hjlt'
    obtain ⟨r, s, n, hg, hpw, hg'⟩ := hj j hjlt
    have hr'eq := Option.some.inj (hg'.symm.trans hjg)
    subst hr'eq
    have hrm : r ∈ kb.records := List.get?_mem hg
    by_cases hcp : c = "password"
    · subst hcp
      refine ⟨.cipherB64 ⟨deriveKey (envInit salt') newp, nf (0 + j), s⟩,
        ?_, rfl⟩
      rw [lookup_recordSetItem_self]
      rfl
    · rcases hval r hrm c hc with ⟨v, hv, hcl⟩
      exact ⟨v, by rw [lookup_recordSetItem_ne _ _ _ _ hcp]; exact hv, hcl⟩
  obtain ⟨data, hfmt, hcols, hplen, hppt⟩ :=
    parseFileToks_roundtrip kb.columns recs' hne hnd hcc hval'
  have hpipe := rotateRoundTrip_parse kb newp salt' freshSalt nf wnonce
    crcFn lenFn recs' data hrot hfmt hsalt' (hlen _) (hcrc _)
  refine ⟨_, hpipe, ?_⟩
  intro i hi
  obtain ⟨r, s, n, hg, hpw, hg'⟩ := hj i hi
  refine ⟨s, passwordAt_cipher kb i r k n s hg hbox hpw, ?_⟩
  obtain ⟨pr, hpr, hprc⟩ := hppt i _ hg'
  have hprpw : pr.lookup "password" =
      some (.cipherB64 ⟨deriveKey (envInit salt') newp, nf (0 + i), s⟩) := by
    apply hprc "password" _ hpc
    rw [lookup_recordSetItem_self]
    rfl
  exact passwordAt_cipher _ i pr (deriveKey (envInit salt') newp)
    (nf (0 + i)) s hpr
    (by simp [postReadEnv, envSetPassphrase, deriveKey, envInit]) hprpw

/-- The key a fresh envelope with salt `0…0` derives for passphrase
`"old"`. -/
def kC3old : KdfKey :=
  ⟨PWHASH_ARGON2I, "old", List.replicate 16 0, OPSLIMIT_INTERACTIVE,
    MEMLIMIT_INTERACTIVE⟩

/-- The key the rotation's fresh envelope (salt `1…1`) derives for the
new passphrase `"new"`. -/
def kC3new : KdfKey :=
  ⟨PWHASH_ARGON2I, "new", List.replicate 16 1, OPSLIMIT_INTERACTIVE,
    MEMLIMIT_INTERACTIVE⟩

/-- A concrete keybox with one record whose password is encrypted under
the current envelope key. -/
def kbC3wit : Keybox :=
  { records := [recordInit COLUMNS
      [("password", Val.cipherB64 ⟨kC3old, 5, "pw"⟩),
       ("mtime", Val.plainStr "2021-01-01 00:00:00")]],
    columns := COLUMNS, column_widths := [],
    envelope := envSetPassphrase (envInit (List.replicate 16 0)) "old",
    modified := false }

/-- A concrete keybox with one record whose stored password field is the
literal empty string. -/
def kbC3cex : Keybox :=
  { records := [recordInit COLUMNS []], columns := COLUMNS,
    column_widths := [],
    envelope := envSetPassphrase (envInit (List.replicate 16 0)) "old",
    modified := false }

/-- A concrete keybox whose single record holds a literal tab inside its
`note` value (and a properly encrypted password). -/
def kbC3tab : Keybox :=
  { records := [recordInit COLUMNS
      [("note", Val.plainStr "a\tb"),
       ("mtime", Val.plainStr "2021-01-01 00:00:00"),
       ("password", Val.cipherB64 ⟨kC3old, 5, "pw"⟩)]],
    columns := COLUMNS, column_widths := [],
    envelope := envSetPassphrase (envInit (List.replicate 16 0)) "old",
    modified := false }

/-- `kbC3tab`'s record list after the re-encryption loop of
`set_passphrase("new")`. -/
def c3TabRecs : List Rec :=
  [recordSetItem (recordInit COLUMNS
      [("note", Val.plainStr "a\tb"),
       ("mtime", Val.plainStr "2021-01-01 00:00:00"),
       ("password", Val.cipherB64 ⟨kC3old, 5, "pw"⟩)])
    "password" (Val.cipherB64 ⟨kC3new, 0, "pw"⟩)]

/-- The serialized vault text of the rotated `kbC3tab` (the literal tab
inside `note` splits its record line into eight fields). -/
def c3TabData : List Tok :=
  match formatFileToks c3TabRecs COLUMNS with
  | .ok d => d
  | .error _ => []

/-- C3 counterexample, refuting both unconditional readings: (a) with a
record whose stored password field is empty, the pre-rotation proxy
read returns the empty string but the rotation raises
(`decrypt_base64('')` fails), so no post-rotation state exists; (b)
with a record holding a literal tab inside its `note`, the rotation and
round trip complete but the tab shifts the parsed columns and the
post-round-trip password read fails instead of returning the original
password. -/
theorem claim_C3_counterexample :
    (passwordAt kbC3cex 0 = .ok (.plainStr "") ∧
      rotateRoundTrip kbC3cex "new" (List.replicate 16 1) (fun _ => 0) 0
        (List.replicate 16 2) (fun _ => 0) (fun _ => 0) =
        .error .valueError) ∧
    (passwordAt kbC3tab 0 = .ok (.plainStr "pw") ∧
      ∃ kb'', rotateRoundTrip kbC3tab "new" (List.replicate 16 1)
          (fun _ => 0) 0 (List.replicate 16 2) (fun _ => 0) (fun _ => 0) =
          .ok kb'' ∧
        passwordAt kb'' 0 = .error .valueError) := by
  refine ⟨⟨by decide, by decide⟩, by decide, ?_⟩
  have h := rotateRoundTrip_parse kbC3tab "new" (List.replicate 16 1)
    (List.replicate 16 2) (fun _ => 0) 0 (fun _ => 0) (fun _ => 0)
    c3TabRecs c3TabData (by decide) (by decide) (by decide)
    (by decide) (by decide)
  exact ⟨_, h, by decide⟩

/-- C3 witness: concrete one-record keybox round trip. -/
theorem claim_C3_rotation_preserves_passwords_witness :
    ∃ kb'', rotateRoundTrip kbC3wit "new" (List.replicate 16 1)
        (fun i => i) 9 (List.replicate 16 2) (fun _ => 0) (fun _ => 0) =
        .ok kb'' ∧
      ∀ i, i < kbC3wit.records.length →
        ∃ s, passwordAt kbC3wit i = .ok (.plainStr s) ∧
          passwordAt kb'' i = .ok (.plainStr s) :=
  claim_C3_rotation_preserves_passwords kbC3wit kC3old "new"
    (List.replicate 16 1) (List.replicate 16 2) (fun i => i) 9
    (fun _ => 0) (fun _ => 0) (by decide) (by decide) (by decide)
    (by decide)
    (by
      intro r hr
      rw [kbC3wit, List.mem_singleton] at hr
      subst hr
      intro c hc
      simp only [kbC3wit, COLUMNS, List.mem_cons, List.not_mem_nil,
        or_false] at hc
      rcases hc with rfl | rfl | rfl | rfl | rfl | rfl | rfl <;>
        exact ⟨_, rfl, rfl⟩)
    (by
      intro r hr
      rw [kbC3wit, List.mem_singleton] at hr
      subst hr
      exact ⟨"pw", 5, by decide⟩)
    (by decide) (fun d => by norm_num) (fun d => by norm_num)

/-! ### C7: plain-text export escaping and import parsing -/

/-- `data.rstrip('\n')`: strip all trailing newline characters. -/
def pyRstripNl (l : List Char) : List Char :=
  (l.reverse.dropWhile (fun c => c = '\n')).reverse

/-- Python `str.split('\t')`. -/
def splitTabs : List Char → List (List Char)
  | [] => [[]]
  | c :: cs =>
    if c = '\t' then [] :: splitTabs cs
    else
      match splitTabs cs with
      | [] => [[c]]
      | h :: t => (c :: h) :: t

/-- The value list `parse_record`/`parse_header` extract from one line:
`data.rstrip('\n').split('\t')` (`fileformat.py`). -/
def parseValues (line : String) : List String :=
  (splitTabs (pyRstripNl line.data)).map (fun cs => ⟨cs⟩)

/-- `parse_record(data, columns)` = `Record(zip(columns, values))` with
canonical column defaulting. -/
def parseRecordLine (columns : List String) (line : String) : Rec :=
  recordInit COLUMNS (columns.zip ((parseValues line).map Val.plainStr))

theorem splitTabs_no_tab (l : List Char) (h : '\t' ∉ l) :
    splitTabs l = [l] := by
  induction l with
  | nil => rfl
  | cons c cs ih =>
      have hc : ¬ c = '\t' := fun hh => h (hh ▸ List.mem_cons_self _ _)
      have hcs : '\t' ∉ cs := fun hh => h (List.mem_cons_of_mem _ hh)
      rw [splitTabs, if_neg hc, ih hcs]

theorem pyRstripNl_append_nl (l : List Char) (h : '\n' ∉ l) :
    pyRstripNl (l ++ ['\n']) = l := by
  have hrev : '\n' ∉ l.reverse := by simpa using h
  rw [pyRstripNl, List.reverse_append]
  show ((['\n'].reverse ++ l.reverse).dropWhile (fun c => c = '\n')).reverse = l
  rw [List.reverse_singleton]
  have h1 : (('\n' :: l.reverse).dropWhile (fun c => c = '\n')) =
      l.reverse.dropWhile (fun c => c = '\n') := by
    simp [List.dropWhile]
  rw [List.singleton_append, h1]
  have h2 : l.reverse.dropWhile (fun c => c = '\n') = l.reverse := by
    cases hr : l.reverse with
    | nil => rfl
    | cons c t =>
        have hc : ¬ c = '\n' := by
          intro hh
          exact hrev (hr ▸ hh ▸ List.mem_cons_self _ _)
        simp [List.dropWhile, hc]
  rw [h2, List.reverse_reverse]

/-- C7 (amended): plain-text export C-escapes (`nt_escape`) only the
decrypted `password` column; every other column is written raw; and
plain-text import stores parsed field values verbatim — it applies no
unescaping. -/
theorem claim_C7_export_escapes_password_only
    (env : Envelope) (r : Rec) (kk : KdfKey) (n : Nat) (s : String)
    (hb : env.box = some kk)
    (hpw : r.lookup "password" = some (.cipherB64 ⟨kk, n, s⟩)) :
    exportGet env r "password" = .ok (.plainStr (ntEscape s)) ∧
    (∀ col v, ¬ col = "password" → r.lookup col = some v →
      exportGet env r col = .ok v) ∧
    (∀ t : String, '\t' ∉ t.data → '\n' ∉ t.data →
      parseValues (t ++ "\n") = [t]) := by
  refine ⟨?_, ?_, ?_⟩
  · simp [exportGet, encRecGet, hpw, valTruthy, decryptB64, envDecrypt,
      hb, Except.map]
  · intro col v hcol hv
    simp [exportGet, encRecGet, hv, hcol]
  · intro t ht hn
    rw [parseValues]
    have hdata : (t ++ "\n").data = t.data ++ ['\n'] := by
      simp [String.data_append]
    rw [hdata, pyRstripNl_append_nl _ hn, splitTabs_no_tab _ ht]
    rfl

/-- A concrete record with a tab inside its `note` and a password whose
plaintext contains a tab. -/
def rC7cex : Rec :=
  recordInit COLUMNS [("note", Val.plainStr "a\tb"),
    ("password", Val.cipherB64 ⟨kC3old, 0, "p\tq"⟩)]

/-- The envelope holding the key `rC7cex`'s password is encrypted under. -/
def envC7 : Envelope :=
  envSetPassphrase (envInit (List.replicate 16 0)) "old"

/-- C7 counterexample: the exported `note` value keeps its literal tab
(no C-escape outside the password column), and importing an escaped
value stores the two-character sequence `\t` verbatim (no unescaping),
so export-then-import does not restore a tab-containing value. -/
theorem claim_C7_counterexample :
    exportGet envC7 rC7cex "note" = .ok (.plainStr "a\tb") ∧
    ¬ ("a\tb" = ntEscape "a\tb") ∧
    exportGet envC7 rC7cex "password" = .ok (.plainStr "p\\tq") ∧
    parseValues "p\\tq\n" = ["p\\tq"] ∧
    ¬ ("p\\tq" = "p\tq") := by
  refine ⟨by decide, by decide, by decide, by decide, by decide⟩

/-- C7 witness: concrete export/import evaluations. -/
theorem claim_C7_export_escapes_password_only_witness :
    exportGet envC7 rC7cex "password" = .ok (.plainStr (ntEscape "p\tq")) ∧
    (∀ col v, ¬ col = "password" → rC7cex.lookup col = some v →
      exportGet envC7 rC7cex col = .ok v) ∧
    (∀ t : String, '\t' ∉ t.data → '\n' ∉ t.data →
      parseValues (t ++ "\n") = [t]) :=
  claim_C7_export_escapes_password_only envC7 rC7cex kC3old 0 "p\tq"
    (by decide) (by decide)

/-! ### C8: near-duplicate import (`Keybox.import_file`, plain format)

The plain branch of `import_file`: parse the tab-delimited text, check
the header columns against the vault schema, then for each incoming
record look for near-duplicates among the still-unmatched local records
(`Keybox._match_record`) and resolve. -/

def IMPORT_MIN_MATCHED_COLS : Nat := 3

/-- `fn_resolve_matched_rec`'s answer, as exercised by the tests: a
constant resolution, `replace` picking `matched_recs[0]`. -/
inductive Resolution where
  | replace
  | add
  | keepLocal
  deriving DecidableEq

/-- `parse_file` over a list of stream lines (each line as `readline`
returns it, trailing newline included): header columns then one record
per line. -/
def parsePlainLines : List String → List Rec × List String
  | [] => ([], [""])
  | h :: t =>
    (t.map (parseRecordLine (parseValues h)), parseValues h)

/-- The non-password column comparison loop of `_match_record`: count
columns where the candidate's (proxy-read) value equals the incoming
record's raw `.get(column, '')` value. -/
def scoreCols (env : Envelope) (r other : Rec) :
    List String → Except Err Nat
  | [] => .ok 0
  | c :: cs =>
    match encRecGet env r c with
    | .error e => .error e
    | .ok v =>
      match scoreCols env r other cs with
      | .error e => .error e
      | .ok sc =>
        .ok (if v = (other.lookup c).getD (.plainStr "") then sc + 1
             else sc)

/-- The candidate loop of `Keybox._match_record` (candidates are indices
into the record list; always valid, as built by `import_file`). -/
def matchLoop (env : Envelope) (cols : List String) (records : List Rec)
    (other : Rec) : List Nat → Nat → List Nat →
    Except Err (List Nat × Bool)
  | [], _, matching => .ok (matching, false)
  | c :: cs, minScore, matching =>
    match scoreCols env (records.getD c []) other
        (cols.filter (fun x => x ≠ "password")) with
    | .error e => .error e
    | .ok s1 =>
      if s1 + 1 < minScore then
        matchLoop env cols records other cs minScore matching
      else
        match encRecGet env (records.getD c []) "password" with
        | .error e => .error e
        | .ok pv =>
          match other.lookup "password" with
          | none => .error .keyError
          | some ov =>
            if (if pv = ov then s1 + 1 else s1) < minScore then
              matchLoop env cols records other cs minScore matching
            else if (if pv = ov then s1 + 1 else s1) = cols.length then
              .ok ([c], true)
            else if (if pv = ov then s1 + 1 else s1) > minScore then
              matchLoop env cols records other cs
                (if pv = ov then s1 + 1 else s1) [c]
            else
              matchLoop env cols records other cs minScore
                (matching ++ [c])

/-- `Keybox._match_record` with the default `min_score`. -/
def matchRecord (env : Envelope) (cols : List String)
    (records : List Rec) (other : Rec) (cands : List Nat) :
    Except Err (List Nat × Bool) :=
  matchLoop env cols records other cands IMPORT_MIN_MATCHED_COLS []

/-- The `replace` resolution: `rec[column] = new_rec[column]` for every
vault column through the `EncryptedRecord` proxy (so the incoming plain
password is encrypted; an opaque ciphertext-text value is outside the
model and outside the modelled call sites). -/
def replaceCols (env : Envelope) (nr : Rec) :
    List String → Rec → Nat → Except Err (Rec × Nat)
  | [], r, ctr => .ok (r, ctr)
  | c :: cs, r, ctr =>
    match nr.lookup c with
    | none => .error .keyError
    | some v =>
      if c = "password" then
        match (if valTruthy v then v else .plainStr "") with
        | .plainStr s =>
          match encryptB64 env ctr s with
          | .error e => .error e
          | .ok ev => replaceCols env nr cs (recordSetItem r c ev) (ctr + 1)
        | .cipherB64 _ => .error .typeError
      else
        replaceCols env nr cs
          (recordSetItem r c (if valTruthy v then v else .plainStr "")) ctr

/-- The per-incoming-record loop of `import_file` (state: keybox,
unmatched candidate indices, counts, nonce counter). -/
def importLoop (res : Resolution) (now : String) :
    List Rec → Keybox → List Nat → Nat → Nat → Nat →
    Except Err (Keybox × Nat × Nat)
  | [], kb, _, nn, nu, _ => .ok (kb, nn, nu)
  | nr :: rest, kb, cands, nn, nu, ctr =>
    match matchRecord kb.envelope kb.columns kb.records nr cands with
    | .error e => .error e
    | .ok (matched, isExact) =>
      if isExact then
        match matched with
        | [c] => importLoop res now rest kb (cands.erase c) nn nu ctr
        | _ => .error .assertError
      else
        match matched with
        | [] =>
          match addRecord kb nr ctr now with
          | .error e => .error e
          | .ok (kb', ctr') =>
            importLoop res now rest { kb' with modified := true } cands
              (nn + 1) nu ctr'
        | c :: _ =>
          match res with
          | .replace =>
            match replaceCols kb.envelope nr kb.columns
                (kb.records.getD c []) ctr with
            | .error e => .error e
            | .ok (r', ctr') =>
              importLoop res now rest
                { kb with records := kb.records.set c r',
                          modified := true }
                (cands.erase c) nn (nu + 1) ctr'
          | .add =>
            match addRecord kb nr ctr now with
            | .error e => .error e
            | .ok (kb', ctr') =>
              importLoop res now rest { kb' with modified := true } cands
                (nn + 1) nu ctr'
          | .keepLocal => importLoop res now rest kb cands nn nu ctr

/-- The plain branch of `Keybox.import_file`: parse, check the header
columns against the vault schema, run the loop; returns
`(n_total, n_new, n_updated)`. -/
def importFilePlain (kb : Keybox) (fileLines : List String)
    (res : Resolution) (now : String) (ctr : Nat) :
    Except Err (Nat × Nat × Nat) :=
  match parsePlainLines fileLines with
  | (records, columns) =>
    if columns.all (fun c => kb.columns.contains c) then
      match importLoop res now records kb
          (List.range kb.records.length) 0 0 ctr with
      | .error e => .error e
      | .ok (_, nn, nu) => .ok (records.length, nn, nu)
    else .error .assertError

/-- The key of the scenario vault's envelope (passphrase `"test123"`). -/
def kC8 : KdfKey :=
  ⟨PWHASH_ARGON2I, "test123", List.replicate 16 3, OPSLIMIT_INTERACTIVE,
    MEMLIMIT_INTERACTIVE⟩

/-- The scenario's single local record A (password stored as the
per-value encryption of `"test"` under the vault key). -/
def recC8A : Rec :=
  recordInit COLUMNS
    [("site", .plainStr "test"), ("user", .plainStr "test"),
     ("url", .plainStr "http://test.test"), ("tags", .plainStr "test"),
     ("mtime", .plainStr "2021-11-06 20:23:59"),
     ("note", .plainStr "test!"),
     ("password", .cipherB64 ⟨kC8, 0, "test"⟩)]

/-- The scenario vault: exactly record A, envelope keyed by `kC8`. -/
def kbC8 : Keybox :=
  { records := [recC8A], columns := COLUMNS,
    column_widths := recomputeWidths COLUMNS [recC8A],
    envelope := { envInit (List.replicate 16 3) with
      key := some kC8, box := some kC8 },
    modified := false }

/-- The two-record plain import file of scenario 5 (stream lines). -/
def dummyUpdateLines : List String :=
  ["site\tuser\turl\ttags\tmtime\tnote\tpassword\n",
   "test\tmona\thttp://test.test\ttest\t2021-11-12 20:27:03\tupdated\ttest123\n",
   "second\tlisa\thttps://example.com\ttag2\t2021-11-12 20:28:12\tnew one\tsecret\n"]

/-- C8: importing the two-record plain file of scenario 5 into the vault
holding record A returns `(2, 1, 1)` when the resolve callback answers
`replace(0)` for the first incoming record, `(2, 2, 0)` for `add`, and
`(2, 1, 0)` for `keep_local`; the second incoming record is always added
as new. -/
theorem claim_C8_near_duplicate_import_results :
    importFilePlain kbC8 dummyUpdateLines .replace "2021-11-13 10:00:00"
      100 = .ok (2, 1, 1) ∧
    importFilePlain kbC8 dummyUpdateLines .add "2021-11-13 10:00:00"
      100 = .ok (2, 2, 0) ∧
    importFilePlain kbC8 dummyUpdateLines .keepLocal "2021-11-13 10:00:00"
      100 = .ok (2, 1, 0) := by
  refine ⟨by decide, by decide, by decide⟩
